import Mathlib

/-!
Verification of the sns-sqs-microservices pipeline (producer, order-processing
consumer, notification consumer) against its natural-language specification.

The Python sources are embedded shallowly:

* JSON values (`json.loads` / `json.dumps` results) are modelled by the mutual
  inductive family `JVal` / `JMems` / `JFields`.  Numbers are modelled as exact
  decimal literals (an integer mantissa together with a count of fractional
  digits); exponent notation is not modelled since neither the producer nor the
  consumers ever emit it.  Serialisation (`dumpVal`) follows `json.dumps`
  defaults for separators and escapes control characters, quotes and
  backslashes (other characters are kept literally).
* `parse` models `json.loads`: it is a fuel-bounded recursive-descent parser
  over `List Char`; duplicate object keys follow Python dict semantics (first
  occurrence keeps its position, the last value wins).
* Each consumer's per-message block is a pure step function returning either
  an effect record (message handled, loop continues) or an uncaught Python
  exception (the `try` in `main` only catches `KeyboardInterrupt`, so any such
  exception terminates the polling loop).
* The external SQS boundary is a parameter: `receive_messages` is a function
  of the transport outcome, exactly mirroring the `try/except ClientError`
  structure of the source.
-/

namespace SnsSqs

mutual

/-- JSON values as produced by `json.loads`: `null`, booleans, decimal
numbers (`num m f` denotes `m / 10^f`), strings, arrays and objects. -/
inductive JVal : Type where
  | null : JVal
  | bool : Bool → JVal
  | num : Int → Nat → JVal
  | str : List Char → JVal
  | arr : JMems → JVal
  | obj : JFields → JVal

inductive JMems : Type where
  | nil : JMems
  | cons : JVal → JMems → JMems

inductive JFields : Type where
  | nil : JFields
  | cons : List Char → JVal → JFields → JFields

end

/-- Whitespace characters recognised by the JSON grammar. -/
def isWs (c : Char) : Bool :=
  c = ' ' || c = '\n' || c = '\t' || c = '\r'

/-- Drop leading JSON whitespace. -/
def skipWs : List Char → List Char
  | [] => []
  | c :: cs => if isWs c then skipWs cs else c :: cs

/-- Numeric value of a decimal digit character. -/
def digitVal (c : Char) : Nat := c.toNat - 48

/-- The decimal digit character for `n < 10`. -/
def digitChar (n : Nat) : Char := Char.ofNat (48 + n)

/-- Lowercase hexadecimal digit character for `n < 16`. -/
def hexDigitChar (n : Nat) : Char :=
  if n < 10 then Char.ofNat (48 + n) else Char.ofNat (87 + n)

/-- Numeric value of a hexadecimal digit character, if any. -/
def hexVal (c : Char) : Option Nat :=
  if 48 ≤ c.toNat ∧ c.toNat ≤ 57 then some (c.toNat - 48)
  else if 97 ≤ c.toNat ∧ c.toNat ≤ 102 then some (c.toNat - 87)
  else if 65 ≤ c.toNat ∧ c.toNat ≤ 70 then some (c.toNat - 55)
  else none

/-- Single-character JSON escapes accepted after a backslash. -/
def escChar (e : Char) : Option Char :=
  if e = '"' then some '"'
  else if e = '\\' then some '\\'
  else if e = '/' then some '/'
  else if e = 'n' then some '\n'
  else if e = 't' then some '\t'
  else if e = 'r' then some '\r'
  else if e = 'b' then some (Char.ofNat 8)
  else if e = 'f' then some (Char.ofNat 12)
  else none

/-- Maximal run of decimal digits at the head of the input. -/
def spanDigits : List Char → List Char × List Char
  | [] => ([], [])
  | c :: cs =>
    if c.isDigit then
      match spanDigits cs with
      | (ds, r) => (c :: ds, r)
    else ([], c :: cs)

/-- Value of a digit string, most significant digit first. -/
def digitsToNat (ds : List Char) : Nat :=
  ds.foldl (fun a c => 10 * a + digitVal c) 0

/-- Render the digits of a natural number onto an accumulator. -/
def natDigitsGo (n : Nat) (acc : List Char) : List Char :=
  if 10 ≤ n then natDigitsGo (n / 10) (digitChar (n % 10) :: acc)
  else digitChar n :: acc
termination_by n
decreasing_by exact Nat.div_lt_self (by omega) (by omega)

/-- Decimal rendering of a natural number, no leading zeros (except `"0"`). -/
def natDigits (n : Nat) : List Char := natDigitsGo n []

/-- Render `n` in exactly `k` digits, padding with leading zeros. -/
def padDigits (k n : Nat) : List Char :=
  List.replicate (k - (natDigits n).length) '0' ++ natDigits n

/-- Body of a JSON string after the opening quote: returns the decoded
characters and the input remaining after the closing quote. -/
def parseStrBody : List Char → Option (List Char × List Char)
  | [] => none
  | c :: cs =>
    if c = '"' then some ([], cs)
    else if c = '\\' then
      match cs with
      | [] => none
      | e :: cs2 =>
        if e = 'u' then
          match cs2 with
          | h1 :: h2 :: h3 :: h4 :: cs3 =>
            match hexVal h1, hexVal h2, hexVal h3, hexVal h4 with
            | some a, some b, some c2, some d =>
              match parseStrBody cs3 with
              | some (s, r) => some (Char.ofNat (((a * 16 + b) * 16 + c2) * 16 + d) :: s, r)
              | none => none
            | _, _, _, _ => none
          | _ => none
        else
          match escChar e with
          | some ec =>
            match parseStrBody cs2 with
            | some (s, r) => some (ec :: s, r)
            | none => none
          | none => none
    else
      match parseStrBody cs with
      | some (s, r) => some (c :: s, r)
      | none => none

/-- Unsigned part of a JSON number: integer digits with optional fraction,
maximal munch; returns the value scaled by `10^f` together with `f`. -/
def parseUnsigned (cs : List Char) : Option ((Nat × Nat) × List Char) :=
  match spanDigits cs with
  | ([], _) => none
  | (d0 :: ds, rest) =>
    match rest with
    | [] => some ((digitsToNat (d0 :: ds), 0), [])
    | c :: rest2 =>
      if c = '.' then
        match spanDigits rest2 with
        | ([], _) => none
        | (f0 :: fs, rest3) =>
          some ((digitsToNat (d0 :: ds) * 10 ^ (f0 :: fs).length + digitsToNat (f0 :: fs),
                 (f0 :: fs).length), rest3)
      else some ((digitsToNat (d0 :: ds), 0), c :: rest2)

/-- Parse a JSON number (optional sign, integer part, optional fraction),
returning mantissa, number of fractional digits and the remaining input. -/
def parseNumber (cs : List Char) : Option ((Int × Nat) × List Char) :=
  match cs with
  | [] => none
  | c :: rest =>
    if c = '-' then
      match parseUnsigned rest with
      | some ((a, f), r) => some ((-(Int.ofNat a), f), r)
      | none => none
    else
      match parseUnsigned (c :: rest) with
      | some ((a, f), r) => some ((Int.ofNat a, f), r)
      | none => none

/-- Python `key in d` on a parsed JSON object. -/
def hasField : JFields → List Char → Bool
  | .nil, _ => false
  | .cons k _ rest, key => k == key || hasField rest key

/-- Python `d[key]` on a parsed JSON object (keys are unique by parsing). -/
def findField : JFields → List Char → Option JVal
  | .nil, _ => none
  | .cons k v rest, key => if k == key then some v else findField rest key

/-- Remove every binding of `key`. -/
def eraseField : JFields → List Char → JFields
  | .nil, _ => .nil
  | .cons k v rest, key =>
    if k == key then eraseField rest key else .cons k v (eraseField rest key)

/-- Combine a parsed key/value pair with the fields parsed after it, with
Python dict duplicate-key semantics: the first occurrence keeps its position
and the last occurrence's value wins. -/
def consField (k : List Char) (v : JVal) (fs : JFields) : JFields :=
  match findField fs k with
  | some w => .cons k w (eraseField fs k)
  | none => .cons k v fs

/-- Python `d[key] = v`: overwrite in place if present, else append. -/
def setField : JFields → List Char → JVal → JFields
  | .nil, k, v => .cons k v .nil
  | .cons k2 v2 rest, k, v =>
    if k2 == k then .cons k v rest else .cons k2 v2 (setField rest k v)

mutual

/-- Fuel-bounded JSON value grammar, mirroring `json.loads`. -/
def parseVal : Nat → List Char → Option (JVal × List Char)
  | 0, _ => none
  | fuel + 1, cs =>
    match skipWs cs with
    | [] => none
    | c :: cs1 =>
      if c = '{' then
        match skipWs cs1 with
        | '}' :: rest => some (.obj .nil, rest)
        | _ => match parseFields fuel cs1 with
               | some (fs, rest) => some (.obj fs, rest)
               | none => none
      else if c = '[' then
        match skipWs cs1 with
        | ']' :: rest => some (.arr .nil, rest)
        | _ => match parseMems fuel cs1 with
               | some (xs, rest) => some (.arr xs, rest)
               | none => none
      else if c = '"' then
        match parseStrBody cs1 with
        | some (s, rest) => some (.str s, rest)
        | none => none
      else if c = 'n' then
        match cs1 with
        | 'u' :: 'l' :: 'l' :: rest => some (.null, rest)
        | _ => none
      else if c = 't' then
        match cs1 with
        | 'r' :: 'u' :: 'e' :: rest => some (.bool true, rest)
        | _ => none
      else if c = 'f' then
        match cs1 with
        | 'a' :: 'l' :: 's' :: 'e' :: rest => some (.bool false, rest)
        | _ => none
      else if c = '-' ∨ c.isDigit then
        match parseNumber (c :: cs1) with
        | some ((m, f), rest) => some (.num m f, rest)
        | none => none
      else none

/-- Members of a non-empty JSON array, positioned at the first element;
consumes the closing bracket. -/
def parseMems : Nat → List Char → Option (JMems × List Char)
  | 0, _ => none
  | fuel + 1, cs =>
    match parseVal fuel cs with
    | none => none
    | some (v, r1) =>
      match skipWs r1 with
      | ',' :: r2 =>
        (match parseMems fuel r2 with
         | some (xs, r3) => some (.cons v xs, r3)
         | none => none)
      | ']' :: r2 => some (.cons v .nil, r2)
      | _ => none

/-- Fields of a non-empty JSON object, positioned at the first key;
consumes the closing brace. -/
def parseFields : Nat → List Char → Option (JFields × List Char)
  | 0, _ => none
  | fuel + 1, cs =>
    match skipWs cs with
    | '"' :: cs1 =>
      (match parseStrBody cs1 with
       | none => none
       | some (k, r1) =>
         match skipWs r1 with
         | ':' :: r2 =>
           (match parseVal fuel r2 with
            | none => none
            | some (v, r3) =>
              match skipWs r3 with
              | ',' :: r4 =>
                (match parseFields fuel r4 with
                 | some (fs, r5) => some (consField k v fs, r5)
                 | none => none)
              | '}' :: r4 => some (consField k v .nil, r4)
              | _ => none)
         | _ => none)
    | _ => none

end

/-- Model of `json.loads`: parse a complete JSON document (the whole input
must be consumed, trailing whitespace allowed); `none` models a raised
`json.JSONDecodeError`. -/
def parse (cs : List Char) : Option JVal :=
  match parseVal (2 * cs.length + 2) cs with
  | some (v, r) => if skipWs r = [] then some v else none
  | none => none

/-- Escape one character the way `json.dumps` does (quotes, backslashes and
control characters; other characters are kept literally). -/
def escapeChar (c : Char) : List Char :=
  if c = '"' then ['\\', '"']
  else if c = '\\' then ['\\', '\\']
  else if c = '\n' then ['\\', 'n']
  else if c = '\t' then ['\\', 't']
  else if c = '\r' then ['\\', 'r']
  else if c.toNat = 8 then ['\\', 'b']
  else if c.toNat = 12 then ['\\', 'f']
  else if c.toNat < 32 then
    '\\' :: 'u' :: '0' :: '0' :: hexDigitChar (c.toNat / 16) :: [hexDigitChar (c.toNat % 16)]
  else [c]

/-- Serialise a string body, including the closing quote. -/
def dumpStrBody (s : List Char) : List Char :=
  s.foldr (fun c acc => escapeChar c ++ acc) ['"']

/-- Serialise the magnitude of a JSON number `a / 10^f`. -/
def dumpNumCore (a f : Nat) : List Char :=
  if f = 0 then natDigits a
  else natDigits (a / 10 ^ f) ++ '.' :: padDigits f (a % 10 ^ f)

/-- Serialise a JSON number `m / 10^f` as a decimal literal. -/
def dumpNum (m : Int) (f : Nat) : List Char :=
  if m < 0 then '-' :: dumpNumCore m.natAbs f else dumpNumCore m.natAbs f

mutual

/-- Model of `json.dumps` with its default separators. -/
def dumpVal : JVal → List Char
  | .null => "null".data
  | .bool true => "true".data
  | .bool false => "false".data
  | .num m f => dumpNum m f
  | .str s => '"' :: dumpStrBody s
  | .arr .nil => "[]".data
  | .arr xs => '[' :: dumpMemsTail xs
  | .obj .nil => "\x7b\x7d".data
  | .obj fs => '{' :: dumpFieldsTail fs

/-- Array members followed by the closing bracket. -/
def dumpMemsTail : JMems → List Char
  | .nil => [']']
  | .cons v .nil => dumpVal v ++ [']']
  | .cons v rest => dumpVal v ++ ',' :: ' ' :: dumpMemsTail rest

/-- Object fields followed by the closing brace. -/
def dumpFieldsTail : JFields → List Char
  | .nil => ['}']
  | .cons k v .nil => '"' :: dumpStrBody k ++ ':' :: ' ' :: dumpVal v ++ ['}']
  | .cons k v rest =>
    '"' :: dumpStrBody k ++ ':' :: ' ' :: dumpVal v ++ ',' :: ' ' :: dumpFieldsTail rest

end

mutual

/-- Well-formedness: every object has pairwise distinct keys (always true of
parsed values, since Python dicts cannot hold duplicate keys). -/
def WFv : JVal → Bool
  | .arr xs => WFm xs
  | .obj fs => WFf fs
  | _ => true

/-- Well-formedness of array members. -/
def WFm : JMems → Bool
  | .nil => true
  | .cons v rest => WFv v && WFm rest

/-- Well-formedness of object fields. -/
def WFf : JFields → Bool
  | .nil => true
  | .cons k v rest => !(hasField rest k) && WFv v && WFf rest

end

mutual

/-- Fuel sufficient for `parseVal` to parse the serialisation of a value. -/
def fuelNeed : JVal → Nat
  | .arr xs => 1 + fuelNeedMems xs
  | .obj fs => 1 + fuelNeedFields fs
  | _ => 1

/-- Fuel needed by `parseMems`. -/
def fuelNeedMems : JMems → Nat
  | .nil => 0
  | .cons v rest => 1 + fuelNeed v + fuelNeedMems rest

/-- Fuel needed by `parseFields`. -/
def fuelNeedFields : JFields → Nat
  | .nil => 0
  | .cons _ v rest => 1 + fuelNeed v + fuelNeedFields rest

end

/-- Key `"Message"` of the SNS envelope. -/
def kMessage : List Char := "Message".data

/-- Key `"order_id"`. -/
def kOrderId : List Char := "order_id".data

/-- Key `"customer_id"`. -/
def kCustomerId : List Char := "customer_id".data

/-- Key `"items"`. -/
def kItems : List Char := "items".data

/-- Key `"total_amount"`. -/
def kTotalAmount : List Char := "total_amount".data

/-- Key `"status"`. -/
def kStatus : List Char := "status".data

/-- Key `"processed_at"`. -/
def kProcessedAt : List Char := "processed_at".data

/-- Does every array member hold a string?  (Needed for `", ".join`.) -/
def memsAllStr : JMems → Bool
  | .nil => true
  | .cons (.str _) rest => memsAllStr rest
  | .cons _ _ => false

/-- Python `", ".join(v)` succeeds: on a string (joins its characters), a
list of strings, or a dict (joins its keys, which are strings after JSON
parsing); raises `TypeError` otherwise. -/
def joinOk : JVal → Bool
  | .str _ => true
  | .arr xs => memsAllStr xs
  | .obj _ => true
  | _ => false

/-- Python `f"{v:.2f}"` succeeds exactly on numbers (including booleans,
which are numeric in Python); raises otherwise. -/
def fmtOk : JVal → Bool
  | .num _ _ => true
  | .bool _ => true
  | _ => false

/-- Python substring containment (`pat in s` on strings). -/
def isSubstr (pat : List Char) : List Char → Bool
  | [] => pat.isPrefixOf []
  | c :: tail => pat.isPrefixOf (c :: tail) || isSubstr pat tail

/-- Does the member list contain the Python string `"Message"`?  (Python
`'Message' in body` when the parsed body is a list.) -/
def memsContainsMessage : JMems → Bool
  | .nil => false
  | .cons (.str s) rest => s == kMessage || memsContainsMessage rest
  | .cons _ rest => memsContainsMessage rest

/-- The field accesses of `process_order` (lines 36-40) all succeed: the
order is a dict with keys `order_id`, `customer_id`, `items` (joinable),
`total_amount` (formattable with `:.2f`) and `status`.  Any failure is caught
by the generic `except` and yields `False`. -/
def orderOk : JVal → Bool
  | .obj fs =>
    hasField fs kOrderId && hasField fs kCustomerId &&
    (match findField fs kItems with
     | some iv => joinOk iv
     | none => false) &&
    (match findField fs kTotalAmount with
     | some tv => fmtOk tv
     | none => false) &&
    hasField fs kStatus
  | _ => false

/-- The mutation performed on a successfully processed order
(`order['status'] = 'processing'; order['processed_at'] = now`), with the
wall-clock instant passed in as `t`. -/
def updOrder (t : List Char) : JVal → JVal
  | .obj fs => .obj (setField (setField fs kStatus (.str "processing".data)) kProcessedAt (.str t))
  | v => v

/-- Result of one `process_order` call: outcome, whether the
`json.JSONDecodeError` branch was taken, the parsed order (if parsing
succeeded), the mutated order (on success), and metric increments. -/
structure POResult : Type where
  ok : Bool
  decodeError : Bool
  payload : Option JVal
  state : Option JVal
  processedInc : Nat
  failedInc : Nat
  durationObs : Nat

/-- Model of `process_order` in `order-processing/app.py` (lines 31-56):
parse the body, access/print the order fields, mutate status and
`processed_at`, count one of processed/failed, and time the whole block.
All exceptions are caught inside; `t` is the wall-clock instant. -/
def process_order (t : List Char) (s : List Char) : POResult :=
  match parse s with
  | none => ⟨false, true, none, none, 0, 1, 1⟩
  | some v =>
    if orderOk v then ⟨true, false, some v, some (updOrder t v), 1, 0, 1⟩
    else ⟨false, false, some v, none, 0, 1, 1⟩

/-- The field accesses of `send_notification` (lines 28-43) all succeed:
dict with `customer_id`, `order_id`, `total_amount` (formattable) and
`items` (joinable). -/
def notifOk : JVal → Bool
  | .obj fs =>
    hasField fs kCustomerId && hasField fs kOrderId &&
    (match findField fs kTotalAmount with
     | some tv => fmtOk tv
     | none => false) &&
    (match findField fs kItems with
     | some iv => joinOk iv
     | none => false)
  | _ => false

/-- Model of `send_notification` in `notification/app.py` (lines 25-49):
returns `True` when every access succeeds, `False` otherwise (generic
`except`); no metrics exist in this service. -/
def send_notification (v : JVal) : Bool := notifOk v

/-- An uncaught Python exception escaping the per-message block; the loop's
`try` only catches `KeyboardInterrupt`, so these terminate `main`. -/
inductive PyErr : Type where
  | jsonDecode : PyErr
  | typeErr : PyErr

/-- Effects of one order-processing loop iteration on one message. -/
structure OrdEff : Type where
  handlerOk : Bool
  handlerDecodeError : Bool
  payload : Option JVal
  deleted : Bool
  processedInc : Nat
  failedInc : Nat
  durationObs : Nat

/-- The inner value handed to the handler on the wrapped path:
`body['Message']`, parsed a second time when it is a string. -/
def resolveInner : JVal → Option JVal
  | .str s => parse s
  | m => some m

/-- Package a `process_order` result as the iteration's effects: the message
is deleted exactly when the handler returned `True`. -/
def ordEffOf (r : POResult) : OrdEff :=
  ⟨r.ok, r.decodeError, r.payload, r.ok, r.processedInc, r.failedInc, r.durationObs⟩

/-- One iteration of the order-processing consumer on one received body
(`order-processing/app.py` lines 112-130): parse the outer body (uncaught
`JSONDecodeError` on failure), test `'Message' in body` (Python semantics:
key test on dicts, substring test on strings, membership on lists,
`TypeError` otherwise), unwrap and re-serialise on the wrapped path, and
call `process_order`; delete exactly on handler success. -/
def stepOrder (t : List Char) (b : List Char) : Except PyErr OrdEff :=
  match parse b with
  | none => .error .jsonDecode
  | some body =>
    match body with
    | .obj fs =>
      match findField fs kMessage with
      | some m =>
        (match m with
         | .str s =>
           (match parse s with
            | none => .error .jsonDecode
            | some w => .ok (ordEffOf (process_order t (dumpVal w))))
         | _ => .ok (ordEffOf (process_order t (dumpVal m))))
      | none => .ok (ordEffOf (process_order t b))
    | .str s =>
      if isSubstr kMessage s then .error .typeErr
      else .ok (ordEffOf (process_order t b))
    | .arr xs =>
      if memsContainsMessage xs then .error .typeErr
      else .ok (ordEffOf (process_order t b))
    | _ => .error .typeErr

/-- Effects of one notification loop iteration on one message.  The metric
increments are identically zero: `notification/app.py` defines no counters
or histograms at all. -/
structure NtfEff : Type where
  handlerOk : Bool
  payload : Option JVal
  deleted : Bool
  processedInc : Nat
  failedInc : Nat
  durationObs : Nat

/-- One iteration of the notification consumer on one received body
(`notification/app.py` lines 99-118); the direct path re-parses the raw
body, which yields the same value. -/
def stepNotif (b : List Char) : Except PyErr NtfEff :=
  match parse b with
  | none => .error .jsonDecode
  | some body =>
    match body with
    | .obj fs =>
      match findField fs kMessage with
      | some m =>
        (match m with
         | .str s =>
           (match parse s with
            | none => .error .jsonDecode
            | some w => .ok ⟨send_notification w, some w, send_notification w, 0, 0, 0⟩)
         | _ => .ok ⟨send_notification m, some m, send_notification m, 0, 0, 0⟩)
      | none => .ok ⟨send_notification body, some body, send_notification body, 0, 0, 0⟩
    | .str s =>
      if isSubstr kMessage s then .error .typeErr
      else .ok ⟨send_notification body, some body, send_notification body, 0, 0, 0⟩
    | .arr xs =>
      if memsContainsMessage xs then .error .typeErr
      else .ok ⟨send_notification body, some body, send_notification body, 0, 0, 0⟩
    | _ => .error .typeErr

/-- Observer: was `delete_message` called for this message? -/
def ordDeleted : Except PyErr OrdEff → Bool
  | .ok e => e.deleted
  | .error _ => false

/-- Observer: the handler's return value, if it returned at all. -/
def ordHandlerRet : Except PyErr OrdEff → Option Bool
  | .ok e => some e.handlerOk
  | .error _ => none

/-- Observer: the domain payload the handler parsed and processed. -/
def ordPayload : Except PyErr OrdEff → Option JVal
  | .ok e => e.payload
  | .error _ => none

/-- Observer: whether `process_order` took its `JSONDecodeError` branch. -/
def ordDecodeErr : Except PyErr OrdEff → Option Bool
  | .ok e => some e.handlerDecodeError
  | .error _ => none

/-- Observer: was `delete_message` called (notification service)? -/
def ntfDeleted : Except PyErr NtfEff → Bool
  | .ok e => e.deleted
  | .error _ => false

/-- Observer: `send_notification`'s return value, if it returned. -/
def ntfHandlerRet : Except PyErr NtfEff → Option Bool
  | .ok e => some e.handlerOk
  | .error _ => none

/-- Observer: the payload handed to `send_notification`. -/
def ntfPayload : Except PyErr NtfEff → Option JVal
  | .ok e => e.payload
  | .error _ => none

/-- Observer: metric increments of a notification iteration. -/
def ntfIncs : Except PyErr NtfEff → Option (Nat × Nat × Nat)
  | .ok e => some (e.processedInc, e.failedInc, e.durationObs)
  | .error _ => none

/-- Aggregated state of a consumer run: `message_count`, the four metric
aggregates, delete calls and the number of successfully handled messages. -/
structure ConsumerRun : Type where
  count : Nat
  receivedInc : Nat
  processedInc : Nat
  failedInc : Nat
  durationObs : Nat
  deletes : Nat
  succeeded : Nat

/-- The all-zero run state at startup. -/
def emptyRun : ConsumerRun := ⟨0, 0, 0, 0, 0, 0, 0⟩

/-- The order-processing polling loop over a sequence of received bodies:
`message_count` and the `received` counter are incremented for every handle
pulled; an uncaught exception stops the loop immediately (second component
`true`). -/
def runOrder (t : List Char) : List (List Char) → ConsumerRun → ConsumerRun × Bool
  | [], acc => (acc, false)
  | b :: rest, acc =>
    let acc1 : ConsumerRun :=
      { acc with count := acc.count + 1, receivedInc := acc.receivedInc + 1 }
    match stepOrder t b with
    | .error _ => (acc1, true)
    | .ok e =>
      runOrder t rest
        { acc1 with
          processedInc := acc1.processedInc + e.processedInc,
          failedInc := acc1.failedInc + e.failedInc,
          durationObs := acc1.durationObs + e.durationObs,
          deletes := acc1.deletes + (if e.deleted then 1 else 0),
          succeeded := acc1.succeeded + (if e.handlerOk then 1 else 0) }

/-- `main` of the order-processing service on a finite run: process the
received bodies, then receive the external interrupt.  The first component
is the summary count printed by the `KeyboardInterrupt` handler
(`Total messages processed: {message_count}`), or `none` when the loop was
terminated by an uncaught exception (no summary is printed). -/
def orderMain (t : List Char) (bodies : List (List Char)) : Option Nat × ConsumerRun :=
  match runOrder t bodies emptyRun with
  | (acc, true) => (none, acc)
  | (acc, false) => (some acc.count, acc)

/-- The notification polling loop; this service has no metrics, so only
`message_count`, deletes and successes move. -/
def runNotif : List (List Char) → ConsumerRun → ConsumerRun × Bool
  | [], acc => (acc, false)
  | b :: rest, acc =>
    let acc1 : ConsumerRun := { acc with count := acc.count + 1 }
    match stepNotif b with
    | .error _ => (acc1, true)
    | .ok e =>
      runNotif rest
        { acc1 with
          deletes := acc1.deletes + (if e.deleted then 1 else 0),
          succeeded := acc1.succeeded + (if e.handlerOk then 1 else 0) }

/-- `main` of the notification service on a finite run; the summary line is
`Total notifications sent: {message_count}`. -/
def notifMain (bodies : List (List Char)) : Option Nat × ConsumerRun :=
  match runNotif bodies emptyRun with
  | (acc, true) => (none, acc)
  | (acc, false) => (some acc.count, acc)

/-- An SQS message as delivered to a consumer: body and receipt handle. -/
structure SqsMsg : Type where
  body : List Char
  receiptHandle : List Char

/-- Outcome of the underlying `sqs_client.receive_message` call: a response
whose `Messages` field may be absent (zero messages within the wait bound),
or a raised `botocore` `ClientError`. -/
inductive SqsReceiveOutcome : Type where
  | success : Option (List SqsMsg) → SqsReceiveOutcome
  | clientError : SqsReceiveOutcome

namespace OrderSvc

/-- Model of `receive_messages` in `order-processing/app.py` (lines 58-70):
`response.get('Messages', [])` on success, logged error and `[]` on
`ClientError`. -/
def receive_messages (o : SqsReceiveOutcome) : List SqsMsg :=
  match o with
  | .success resp => resp.getD []
  | .clientError => []

end OrderSvc

namespace NotifSvc

/-- Model of `receive_messages` in `notification/app.py` (lines 51-63),
textually identical to the order-processing copy. -/
def receive_messages (o : SqsReceiveOutcome) : List SqsMsg :=
  match o with
  | .success resp => resp.getD []
  | .clientError => []

end NotifSvc

/-- Observer: the order-processing iteration completed without an uncaught
exception (the loop proceeds to the next message). -/
def ordStepOk : Except PyErr OrdEff → Bool
  | .ok _ => true
  | .error _ => false

/-- Observer: the notification iteration completed without an uncaught
exception. -/
def ntfStepOk : Except PyErr NtfEff → Bool
  | .ok _ => true
  | .error _ => false

/-- Characters that may legally follow a serialised JSON number: end of
input, or anything that is neither a digit nor a decimal point (so the
number parser's maximal munch stops exactly there). -/
def numStopB : List Char → Bool
  | [] => true
  | c :: _ => !c.isDigit && c ≠ '.'

/-- A body (already parsed to an object) is safe on the wrapper path: if a
`Message` field is present and holds a string, that string parses as JSON. -/
def wrapInnerOk (fs : JFields) : Bool :=
  match findField fs kMessage with
  | some (.str s) => (parse s).isSome
  | _ => true

/-- Observer: the `status` field of an order value. -/
def statusOf : JVal → Option JVal
  | .obj fs => findField fs kStatus
  | _ => none

/-- The producer's priority attribute derivation
(`producer/app.py` line 102): `'normal' if total < 500 else 'high'`. -/
def priorityValue (total : ℚ) : List Char :=
  if total < 500 then "normal".data else "high".data

/-- An SNS message attribute value. -/
structure MsgAttrVal : Type where
  dataType : List Char
  stringValue : List Char

/-- The attribute mapping built by the producer (lines 95-104). -/
def message_attributes (total : ℚ) : List (List Char × MsgAttrVal) :=
  [("order_type".data, ⟨"String".data, "standard".data⟩),
   ("priority".data, ⟨"String".data, priorityValue total⟩)]


/-! ### Digit-level lemmas -/

theorem digitChar_isDigit {n : Nat} (h : n < 10) : (digitChar n).isDigit = true := by
  interval_cases n <;> decide

theorem digitVal_digitChar {n : Nat} (h : n < 10) : digitVal (digitChar n) = n := by
  interval_cases n <;> decide

theorem isDigit_ne {c x : Char} (h : c.isDigit = true) (hx : x.isDigit = false) : c ≠ x := by
  intro he
  rw [he, hx] at h
  exact Bool.false_ne_true h

theorem isDigit_not_ws {c : Char} (h : c.isDigit = true) : isWs c = false := by
  have h1 : c ≠ ' ' := isDigit_ne h (by decide)
  have h2 : c ≠ '\n' := isDigit_ne h (by decide)
  have h3 : c ≠ '\t' := isDigit_ne h (by decide)
  have h4 : c ≠ '\r' := isDigit_ne h (by decide)
  simp [isWs, h1, h2, h3, h4]

theorem div10_lt {n : Nat} (h : ¬n < 10) : n / 10 < n :=
  Nat.div_lt_self (by omega) (by omega)

theorem natDigitsGo_small {n : Nat} (h : n < 10) (acc : List Char) :
    natDigitsGo n acc = digitChar n :: acc := by
  conv_lhs => rw [natDigitsGo]
  rw [if_neg (by omega)]

theorem natDigitsGo_large {n : Nat} (h : ¬n < 10) (acc : List Char) :
    natDigitsGo n acc = natDigitsGo (n / 10) (digitChar (n % 10) :: acc) := by
  conv_lhs => rw [natDigitsGo]
  rw [if_pos (by omega)]

theorem natDigitsGo_append (n : Nat) :
    ∀ acc : List Char, natDigitsGo n acc = natDigitsGo n [] ++ acc := by
  induction n using Nat.strong_induction_on with
  | _ n ih =>
    intro acc
    by_cases h : n < 10
    · rw [natDigitsGo_small h, natDigitsGo_small h]
      rfl
    · have hlt : n / 10 < n := div10_lt h
      rw [natDigitsGo_large h, natDigitsGo_large h,
        ih _ hlt (digitChar (n % 10) :: acc), ih _ hlt [digitChar (n % 10)]]
      simp

theorem natDigits_ne_nil (n : Nat) : natDigits n ≠ [] := by
  unfold natDigits
  by_cases h : n < 10
  · rw [natDigitsGo_small h]
    simp
  · rw [natDigitsGo_large h, natDigitsGo_append]
    simp

theorem natDigits_all_digit (n : Nat) :
    ∀ c ∈ natDigits n, c.isDigit = true := by
  induction n using Nat.strong_induction_on with
  | _ n ih =>
    intro c hc
    unfold natDigits at hc
    by_cases h : n < 10
    · rw [natDigitsGo_small h] at hc
      simp at hc
      subst hc
      exact digitChar_isDigit h
    · rw [natDigitsGo_large h, natDigitsGo_append] at hc
      have hlt : n / 10 < n := div10_lt h
      rcases List.mem_append.1 hc with h1 | h1
      · exact ih _ hlt c h1
      · simp at h1
        subst h1
        exact digitChar_isDigit (Nat.mod_lt _ (by omega))

theorem digitsToNat_snoc (xs : List Char) (c : Char) :
    digitsToNat (xs ++ [c]) = 10 * digitsToNat xs + digitVal c := by
  unfold digitsToNat
  rw [List.foldl_append]
  rfl

theorem digitsToNat_natDigits (n : Nat) : digitsToNat (natDigits n) = n := by
  induction n using Nat.strong_induction_on with
  | _ n ih =>
    unfold natDigits
    by_cases h : n < 10
    · rw [natDigitsGo_small h]
      show digitsToNat ([] ++ [digitChar n]) = n
      rw [digitsToNat_snoc, digitVal_digitChar h]
      simp [digitsToNat]
    · have hlt : n / 10 < n := div10_lt h
      rw [natDigitsGo_large h, natDigitsGo_append]
      show digitsToNat (natDigits (n / 10) ++ [digitChar (n % 10)]) = n
      rw [digitsToNat_snoc, ih _ hlt, digitVal_digitChar (Nat.mod_lt _ (by omega))]
      omega

theorem natDigits_length_le {n k : Nat} (hk : 1 ≤ k) (h : n < 10 ^ k) :
    (natDigits n).length ≤ k := by
  induction n using Nat.strong_induction_on generalizing k with
  | _ n ih =>
    unfold natDigits
    by_cases hn : n < 10
    · rw [natDigitsGo_small hn]
      simpa using hk
    · have hlt : n / 10 < n := div10_lt hn
      have hk2 : 2 ≤ k := by
        by_contra hc
        have hk1 : k = 1 := by omega
        subst hk1
        simp at h
        omega
      have hdiv : n / 10 < 10 ^ (k - 1) := by
        have h10 : (10 : Nat) ^ k = 10 ^ (k - 1) * 10 := by
          have hkk : k - 1 + 1 = k := by omega
          rw [← hkk, pow_succ]
          simp
        rw [Nat.div_lt_iff_lt_mul (by omega)]
        omega
      have hrec := ih _ hlt (k := k - 1) (by omega) hdiv
      rw [natDigitsGo_large hn, natDigitsGo_append, List.length_append]
      unfold natDigits at hrec
      simp only [List.length_cons, List.length_nil] at hrec ⊢
      omega

theorem digitsToNat_replicate_zero (z : Nat) (ds : List Char) :
    digitsToNat (List.replicate z '0' ++ ds) = digitsToNat ds := by
  induction z with
  | zero => simp
  | succ m ih =>
    have hrep : List.replicate (m + 1) '0' ++ ds = '0' :: (List.replicate m '0' ++ ds) := by
      simp [List.replicate_succ]
    rw [hrep]
    unfold digitsToNat at ih ⊢
    simpa [digitVal] using ih

theorem padDigits_length {k n : Nat} (hk : 1 ≤ k) (h : n < 10 ^ k) :
    (padDigits k n).length = k := by
  unfold padDigits
  have := natDigits_length_le hk h
  rw [List.length_append, List.length_replicate]
  omega

theorem padDigits_all_digit (k n : Nat) :
    ∀ c ∈ padDigits k n, c.isDigit = true := by
  intro c hc
  unfold padDigits at hc
  rcases List.mem_append.1 hc with h1 | h1
  · have := List.eq_of_mem_replicate h1
    subst this
    decide
  · exact natDigits_all_digit n c h1

theorem digitsToNat_padDigits (k n : Nat) : digitsToNat (padDigits k n) = n := by
  unfold padDigits
  rw [digitsToNat_replicate_zero, digitsToNat_natDigits]

theorem spanDigits_append {ds rest : List Char}
    (hds : ∀ c ∈ ds, c.isDigit = true)
    (hrest : ∀ c tail, rest = c :: tail → c.isDigit = false) :
    spanDigits (ds ++ rest) = (ds, rest) := by
  induction ds with
  | nil =>
    simp only [List.nil_append]
    cases rest with
    | nil => rfl
    | cons c tail =>
      rw [spanDigits, if_neg (by simp [hrest c tail rfl])]
  | cons d tail ih =>
    have hd : d.isDigit = true := hds d (by simp)
    rw [List.cons_append, spanDigits, if_pos hd, ih (fun c hc => hds c (by simp [hc]))]

/-! ### Number round trip -/

theorem parseUnsigned_dumpNumCore {a f : Nat} {rest : List Char}
    (hrest : numStopB rest = true) :
    parseUnsigned (dumpNumCore a f ++ rest) = some ((a, f), rest) := by
  have hstop : ∀ c tail, rest = c :: tail → c.isDigit = false := by
    intro c tail he
    subst he
    simp [numStopB] at hrest
    exact hrest.1
  have hdot : ∀ c tail, rest = c :: tail → c ≠ '.' := by
    intro c tail he
    subst he
    simp [numStopB] at hrest
    exact hrest.2
  by_cases hf : f = 0
  · subst hf
    rw [dumpNumCore, if_pos rfl]
    obtain ⟨d, ds, hnd⟩ : ∃ d ds, natDigits a = d :: ds := by
      cases hh : natDigits a with
      | nil => exact absurd hh (natDigits_ne_nil _)
      | cons d ds => exact ⟨d, ds, rfl⟩
    have hspan : spanDigits (natDigits a ++ rest) = (natDigits a, rest) :=
      spanDigits_append (natDigits_all_digit _) hstop
    rw [hnd, List.cons_append] at hspan
    rw [hnd, List.cons_append, parseUnsigned, hspan]
    cases rest with
    | nil =>
      simp only
      rw [← hnd, digitsToNat_natDigits]
    | cons c tail =>
      simp only
      rw [if_neg (hdot c tail rfl), ← hnd, digitsToNat_natDigits]
  · rw [dumpNumCore, if_neg hf]
    have hf1 : 1 ≤ f := by omega
    have hmod : a % 10 ^ f < 10 ^ f := Nat.mod_lt _ (by positivity)
    obtain ⟨d, ds, hnd⟩ : ∃ d ds, natDigits (a / 10 ^ f) = d :: ds := by
      cases hh : natDigits (a / 10 ^ f) with
      | nil => exact absurd hh (natDigits_ne_nil _)
      | cons d ds => exact ⟨d, ds, rfl⟩
    obtain ⟨p, ps, hpd⟩ : ∃ p ps, padDigits f (a % 10 ^ f) = p :: ps := by
      cases hh : padDigits f (a % 10 ^ f) with
      | nil =>
        have hl := padDigits_length hf1 hmod
        rw [hh] at hl
        simp at hl
        omega
      | cons p ps => exact ⟨p, ps, rfl⟩
    have hcore :
        (natDigits (a / 10 ^ f) ++ '.' :: padDigits f (a % 10 ^ f)) ++ rest =
        natDigits (a / 10 ^ f) ++ ('.' :: (padDigits f (a % 10 ^ f) ++ rest)) := by
      simp
    have hspan1 :
        spanDigits (natDigits (a / 10 ^ f) ++ ('.' :: (padDigits f (a % 10 ^ f) ++ rest))) =
          (natDigits (a / 10 ^ f), '.' :: (padDigits f (a % 10 ^ f) ++ rest)) :=
      spanDigits_append (natDigits_all_digit _) (by intro c tail he; cases he; decide)
    have hspan2 :
        spanDigits (padDigits f (a % 10 ^ f) ++ rest) = (padDigits f (a % 10 ^ f), rest) :=
      spanDigits_append (padDigits_all_digit _ _) hstop
    rw [hnd, List.cons_append] at hspan1
    rw [hpd] at hspan2
    have hlen : (padDigits f (a % 10 ^ f)).length = f := padDigits_length hf1 hmod
    rw [hcore, hnd, List.cons_append, parseUnsigned, hspan1]
    simp only
    rw [if_pos trivial, hpd, hspan2]
    simp only
    rw [← hpd, ← hnd, hlen, digitsToNat_natDigits, digitsToNat_padDigits]
    have hdm : a / 10 ^ f * 10 ^ f + a % 10 ^ f = a := by
      rw [Nat.mul_comm]
      exact Nat.div_add_mod a (10 ^ f)
    rw [hdm]

theorem parseNumber_dumpNum {m : Int} {f : Nat} {rest : List Char}
    (hrest : numStopB rest = true) :
    parseNumber (dumpNum m f ++ rest) = some ((m, f), rest) := by
  by_cases hm : m < 0
  · rw [dumpNum, if_pos hm, List.cons_append, parseNumber, if_pos rfl,
      parseUnsigned_dumpNumCore hrest]
    simp only
    have habs : (Int.ofNat m.natAbs) = -m := by
      rw [Int.ofNat_eq_natCast, ← Int.natAbs_neg,
        Int.natAbs_of_nonneg (by omega : (0 : ℤ) ≤ -m)]
    rw [habs, neg_neg]
  · rw [dumpNum, if_neg hm]
    obtain ⟨d, ds, hnd⟩ : ∃ d ds, dumpNumCore m.natAbs f = d :: ds := by
      cases hh : dumpNumCore m.natAbs f with
      | nil =>
        exfalso
        rw [dumpNumCore] at hh
        by_cases hf : f = 0
        · rw [if_pos hf] at hh
          exact natDigits_ne_nil _ hh
        · rw [if_neg hf] at hh
          exact absurd hh (by simp [natDigits_ne_nil])
      | cons d ds => exact ⟨d, ds, rfl⟩
    have hddig : d.isDigit = true := by
      rw [dumpNumCore] at hnd
      by_cases hf : f = 0
      · rw [if_pos hf] at hnd
        exact natDigits_all_digit _ d (by rw [hnd]; simp)
      · rw [if_neg hf] at hnd
        obtain ⟨e, es, hne⟩ : ∃ e es, natDigits (m.natAbs / 10 ^ f) = e :: es := by
          cases hh : natDigits (m.natAbs / 10 ^ f) with
          | nil => exact absurd hh (natDigits_ne_nil _)
          | cons e es => exact ⟨e, es, rfl⟩
        rw [hne] at hnd
        simp at hnd
        rw [← hnd.1]
        exact natDigits_all_digit _ e (by rw [hne]; simp)
    have hnm : d ≠ '-' := isDigit_ne hddig (by decide)
    rw [hnd, List.cons_append, parseNumber, if_neg hnm, ← List.cons_append, ← hnd,
      parseUnsigned_dumpNumCore hrest]
    simp only
    have habs : (Int.ofNat m.natAbs) = m := by
      rw [Int.ofNat_eq_natCast, Int.natAbs_of_nonneg (by omega : (0 : ℤ) ≤ m)]
    rw [habs]

/-! ### String round trip -/

theorem hexVal_hexDigitChar {n : Nat} (h : n < 16) : hexVal (hexDigitChar n) = some n := by
  interval_cases n <;> decide

theorem dumpStrBody_nil : dumpStrBody [] = ['"'] := rfl

theorem dumpStrBody_cons (c : Char) (s : List Char) :
    dumpStrBody (c :: s) = escapeChar c ++ dumpStrBody s := rfl

theorem parseStrBody_quote (cs : List Char) : parseStrBody ('"' :: cs) = some ([], cs) := by
  rw [parseStrBody.eq_def]
  simp

theorem parseStrBody_plain {c : Char} (h1 : c ≠ '"') (h2 : c ≠ '\\') (cs : List Char) :
    parseStrBody (c :: cs) =
      match parseStrBody cs with
      | some (s, r) => some (c :: s, r)
      | none => none := by
  rw [parseStrBody.eq_def]
  simp [h1, h2]

theorem parseStrBody_esc {e ec : Char} (he : e ≠ 'u') (hesc : escChar e = some ec)
    (cs : List Char) :
    parseStrBody ('\\' :: e :: cs) =
      match parseStrBody cs with
      | some (s, r) => some (ec :: s, r)
      | none => none := by
  rw [parseStrBody.eq_def]
  simp [he, hesc]

theorem parseStrBody_hex {h1 h2 h3 h4 : Char} {a b c2 d : Nat}
    (hv1 : hexVal h1 = some a) (hv2 : hexVal h2 = some b)
    (hv3 : hexVal h3 = some c2) (hv4 : hexVal h4 = some d) (cs : List Char) :
    parseStrBody ('\\' :: 'u' :: h1 :: h2 :: h3 :: h4 :: cs) =
      match parseStrBody cs with
      | some (s, r) => some (Char.ofNat (((a * 16 + b) * 16 + c2) * 16 + d) :: s, r)
      | none => none := by
  rw [parseStrBody.eq_def]
  simp [hv1, hv2, hv3, hv4]

theorem parseStrBody_dumpStrBody (s : List Char) :
    ∀ rest, parseStrBody (dumpStrBody s ++ rest) = some (s, rest) := by
  induction s with
  | nil =>
    intro rest
    rw [dumpStrBody_nil]
    exact parseStrBody_quote rest
  | cons c s ih =>
    intro rest
    rw [dumpStrBody_cons, List.append_assoc]
    by_cases hc1 : c = '"'
    · subst hc1
      rw [show escapeChar '"' = ['\\', '"'] from rfl, List.cons_append, List.cons_append,
        List.nil_append, parseStrBody_esc (by decide) (show escChar '"' = some '"' from rfl),
        ih rest]
    · by_cases hc2 : c = '\\'
      · subst hc2
        rw [show escapeChar '\\' = ['\\', '\\'] from rfl, List.cons_append, List.cons_append,
          List.nil_append, parseStrBody_esc (by decide) (show escChar '\\' = some '\\' from rfl),
          ih rest]
      · by_cases hc3 : c = '\n'
        · subst hc3
          rw [show escapeChar '\n' = ['\\', 'n'] from rfl, List.cons_append, List.cons_append,
            List.nil_append, parseStrBody_esc (by decide) (show escChar 'n' = some '\n' from rfl),
            ih rest]
        · by_cases hc4 : c = '\t'
          · subst hc4
            rw [show escapeChar '\t' = ['\\', 't'] from rfl, List.cons_append, List.cons_append,
              List.nil_append,
              parseStrBody_esc (by decide) (show escChar 't' = some '\t' from rfl), ih rest]
          · by_cases hc5 : c = '\r'
            · subst hc5
              rw [show escapeChar '\r' = ['\\', 'r'] from rfl, List.cons_append,
                List.cons_append, List.nil_append,
                parseStrBody_esc (by decide) (show escChar 'r' = some '\r' from rfl), ih rest]
            · by_cases hc6 : c.toNat = 8
              · have hc : Char.ofNat 8 = c := by
                  rw [← hc6, Char.ofNat_toNat]
                have hesc : escapeChar c = ['\\', 'b'] := by
                  rw [escapeChar, if_neg hc1, if_neg hc2, if_neg hc3, if_neg hc4, if_neg hc5,
                    if_pos hc6]
                rw [hesc, List.cons_append, List.cons_append, List.nil_append,
                  parseStrBody_esc (by decide) (show escChar 'b' = some (Char.ofNat 8) from rfl),
                  ih rest, hc]
              · by_cases hc7 : c.toNat = 12
                · have hc : Char.ofNat 12 = c := by
                    rw [← hc7, Char.ofNat_toNat]
                  have hesc : escapeChar c = ['\\', 'f'] := by
                    rw [escapeChar, if_neg hc1, if_neg hc2, if_neg hc3, if_neg hc4, if_neg hc5,
                      if_neg hc6, if_pos hc7]
                  rw [hesc, List.cons_append, List.cons_append, List.nil_append,
                    parseStrBody_esc (by decide)
                      (show escChar 'f' = some (Char.ofNat 12) from rfl),
                    ih rest, hc]
                · by_cases hc8 : c.toNat < 32
                  · have hesc : escapeChar c = ['\\', 'u', '0', '0'] ++
                        (hexDigitChar (c.toNat / 16) :: [hexDigitChar (c.toNat % 16)]) := by
                      rw [escapeChar, if_neg hc1, if_neg hc2, if_neg hc3, if_neg hc4,
                        if_neg hc5, if_neg hc6, if_neg hc7, if_pos hc8]
                      rfl
                    have hv3 : hexVal (hexDigitChar (c.toNat / 16)) = some (c.toNat / 16) :=
                      hexVal_hexDigitChar (by omega)
                    have hv4 : hexVal (hexDigitChar (c.toNat % 16)) = some (c.toNat % 16) :=
                      hexVal_hexDigitChar (Nat.mod_lt _ (by omega))
                    have harith : ((0 * 16 + 0) * 16 + c.toNat / 16) * 16 + c.toNat % 16
                        = c.toNat := by omega
                    rw [hesc]
                    simp only [List.cons_append, List.nil_append, List.append_assoc]
                    rw [parseStrBody_hex (show hexVal '0' = some 0 by decide)
                      (show hexVal '0' = some 0 by decide) hv3 hv4, ih rest]
                    simp only
                    rw [harith, Char.ofNat_toNat]
                  · have hesc : escapeChar c = [c] := by
                      rw [escapeChar, if_neg hc1, if_neg hc2, if_neg hc3, if_neg hc4,
                        if_neg hc5, if_neg hc6, if_neg hc7, if_neg hc8]
                    rw [hesc, List.cons_append, List.nil_append,
                      parseStrBody_plain hc1 hc2, ih rest]

/-! ### Whitespace and head-shape lemmas -/

theorem skipWs_not {c : Char} (h : isWs c = false) (cs : List Char) :
    skipWs (c :: cs) = c :: cs := by
  rw [skipWs, if_neg (by simp [h])]

theorem skipWs_ws {c : Char} (h : isWs c = true) (cs : List Char) :
    skipWs (c :: cs) = skipWs cs := by
  rw [skipWs, if_pos (by simp [h])]

theorem parseVal_ws (fuel : Nat) {c : Char} (h : isWs c = true) (cs : List Char) :
    parseVal fuel (c :: cs) = parseVal fuel cs := by
  cases fuel with
  | zero => rfl
  | succ g =>
    conv_lhs => rw [parseVal]
    conv_rhs => rw [parseVal]
    rw [skipWs_ws h]

theorem parseMems_ws (fuel : Nat) {c : Char} (h : isWs c = true) (cs : List Char) :
    parseMems fuel (c :: cs) = parseMems fuel cs := by
  cases fuel with
  | zero => rfl
  | succ g =>
    conv_lhs => rw [parseMems]
    conv_rhs => rw [parseMems]
    rw [parseVal_ws g h]

theorem parseFields_ws (fuel : Nat) {c : Char} (h : isWs c = true) (cs : List Char) :
    parseFields fuel (c :: cs) = parseFields fuel cs := by
  cases fuel with
  | zero => rfl
  | succ g =>
    conv_lhs => rw [parseFields]
    conv_rhs => rw [parseFields]
    rw [skipWs_ws h]

theorem dumpNum_head (m : Int) (f : Nat) :
    ∃ d ds, dumpNum m f = d :: ds ∧ (d = '-' ∨ d.isDigit = true) := by
  have hcore : ∃ e es, dumpNumCore m.natAbs f = e :: es ∧ e.isDigit = true := by
    rw [dumpNumCore]
    by_cases hf : f = 0
    · rw [if_pos hf]
      obtain ⟨e, es, he⟩ : ∃ e es, natDigits m.natAbs = e :: es := by
        cases hh : natDigits m.natAbs with
        | nil => exact absurd hh (natDigits_ne_nil _)
        | cons e es => exact ⟨e, es, rfl⟩
      exact ⟨e, es, he, natDigits_all_digit _ e (by rw [he]; simp)⟩
    · rw [if_neg hf]
      obtain ⟨e, es, he⟩ : ∃ e es, natDigits (m.natAbs / 10 ^ f) = e :: es := by
        cases hh : natDigits (m.natAbs / 10 ^ f) with
        | nil => exact absurd hh (natDigits_ne_nil _)
        | cons e es => exact ⟨e, es, rfl⟩
      refine ⟨e, es ++ '.' :: padDigits f (m.natAbs % 10 ^ f), ?_, ?_⟩
      · rw [he]
        simp
      · exact natDigits_all_digit _ e (by rw [he]; simp)
  obtain ⟨e, es, he, hed⟩ := hcore
  rw [dumpNum]
  by_cases hm : m < 0
  · rw [if_pos hm]
    exact ⟨'-', dumpNumCore m.natAbs f, rfl, Or.inl rfl⟩
  · rw [if_neg hm, he]
    exact ⟨e, es, rfl, Or.inr hed⟩

theorem dumpVal_head (v : JVal) :
    ∃ c cs, dumpVal v = c :: cs ∧ (isWs c = false ∧ c ≠ ']' ∧ c ≠ '}') := by
  cases v with
  | num m f =>
    obtain ⟨d, ds, hd, hor⟩ := dumpNum_head m f
    refine ⟨d, ds, hd, ?_⟩
    rcases hor with h | h
    · subst h
      refine ⟨by decide, by decide, by decide⟩
    · exact ⟨isDigit_not_ws h, isDigit_ne h (by decide), isDigit_ne h (by decide)⟩
  | bool b => cases b <;> exact ⟨_, _, rfl, by decide⟩
  | arr xs => cases xs <;> exact ⟨_, _, rfl, by decide⟩
  | obj fs => cases fs <;> exact ⟨_, _, rfl, by decide⟩
  | null => exact ⟨_, _, rfl, by decide⟩
  | str s => exact ⟨_, _, rfl, by decide⟩

theorem dumpMemsTail_cons (v : JVal) (xs : JMems) :
    ∃ t, dumpMemsTail (.cons v xs) = dumpVal v ++ t := by
  cases xs with
  | nil => exact ⟨[']'], rfl⟩
  | cons w ys => exact ⟨',' :: ' ' :: dumpMemsTail (.cons w ys), rfl⟩

theorem findField_none_of_not_has :
    ∀ {fs : JFields} {k : List Char}, hasField fs k = false → findField fs k = none
  | .nil, _, _ => rfl
  | .cons k2 v rest, k, h => by
    rw [hasField, Bool.or_eq_false_iff] at h
    rw [findField, if_neg (by simp_all), findField_none_of_not_has h.2]

/-! ### Field-map lemmas -/

theorem hasField_isSome : ∀ (fs : JFields) (k : List Char),
    hasField fs k = (findField fs k).isSome
  | .nil, _ => rfl
  | .cons k2 v rest, k => by
    rw [hasField, findField]
    by_cases hk : (k2 == k) = true
    · rw [if_pos hk, hk]
      rfl
    · rw [if_neg hk, hasField_isSome rest k]
      simp [hk]

theorem hasField_eraseField : ∀ (fs : JFields) (k : List Char),
    hasField (eraseField fs k) k = false
  | .nil, _ => rfl
  | .cons k2 v rest, k => by
    rw [eraseField]
    by_cases h : (k2 == k) = true
    · rw [if_pos h]
      exact hasField_eraseField rest k
    · rw [if_neg h, hasField, hasField_eraseField rest k]
      simp [h]

theorem hasField_eraseField_mono : ∀ (fs : JFields) (k k2 : List Char),
    hasField (eraseField fs k) k2 = true → hasField fs k2 = true
  | .nil, _, _, h => h
  | .cons k3 v rest, k, k2, h => by
    rw [eraseField] at h
    rw [hasField]
    by_cases hk : (k3 == k) = true
    · rw [if_pos hk] at h
      rw [hasField_eraseField_mono rest k k2 h]
      simp
    · rw [if_neg hk, hasField] at h
      rcases (Bool.or_eq_true _ _).mp h with h1 | h1
      · rw [h1]
        simp
      · rw [hasField_eraseField_mono rest k k2 h1]
        simp

theorem WFf_eraseField : ∀ {fs : JFields} (k : List Char),
    WFf fs = true → WFf (eraseField fs k) = true
  | .nil, _, h => h
  | .cons k2 v rest, k, h => by
    rw [WFf, Bool.and_eq_true, Bool.and_eq_true] at h
    obtain ⟨⟨hnh, hwv⟩, hwr⟩ := h
    rw [eraseField]
    by_cases hk : (k2 == k) = true
    · rw [if_pos hk]
      exact WFf_eraseField k hwr
    · rw [if_neg hk, WFf]
      have h1 : hasField (eraseField rest k) k2 = false := by
        cases hh : hasField (eraseField rest k) k2
        · rfl
        · rw [hasField_eraseField_mono rest k k2 hh] at hnh
          simp at hnh
      rw [h1, WFf_eraseField k hwr, hwv]
      rfl

theorem findField_WFv : ∀ {fs : JFields} {k : List Char} {v : JVal},
    WFf fs = true → findField fs k = some v → WFv v = true
  | .nil, k, v, _, hfind => by
    rw [findField] at hfind
    cases hfind
  | .cons k2 w rest, k, v, hwf, hfind => by
    rw [WFf, Bool.and_eq_true, Bool.and_eq_true] at hwf
    rw [findField] at hfind
    by_cases hk : (k2 == k) = true
    · rw [if_pos hk] at hfind
      cases hfind
      exact hwf.1.2
    · rw [if_neg hk] at hfind
      exact findField_WFv hwf.2 hfind

theorem WFf_consField {k : List Char} {v : JVal} {fs : JFields}
    (hv : WFv v = true) (hf : WFf fs = true) : WFf (consField k v fs) = true := by
  rw [consField]
  cases hfind : findField fs k with
  | none =>
    simp only
    rw [WFf]
    have hh : hasField fs k = false := by
      rw [hasField_isSome, hfind]
      rfl
    rw [hh, hv, hf]
    rfl
  | some w =>
    simp only
    rw [WFf]
    rw [hasField_eraseField fs k, findField_WFv hf hfind, WFf_eraseField k hf]
    rfl

/-! ### The parser only produces well-formed values -/

mutual

theorem parseValWF : ∀ (fuel : Nat) {cs : List Char} {v : JVal} {r : List Char},
    parseVal fuel cs = some (v, r) → WFv v = true
  | 0, cs, v, r, h => by cases h
  | g + 1, cs, v, r, h => by
    rw [parseVal] at h
    split at h
    · cases h
    · split_ifs at h <;>
        first
          | (cases h; done)
          | (cases h; rfl)
          | (split at h <;>
              first
                | (cases h; done)
                | (cases h; rfl)
                | (rename_i a1 a2 heq
                   cases h
                   first
                     | exact parseFieldsWF g heq
                     | exact parseMemsWF g heq)
                | (split at h <;>
                    first
                      | (cases h; done)
                      | (cases h; rfl)
                      | (rename_i a1 a2 heq
                         cases h
                         first
                           | exact parseFieldsWF g heq
                           | exact parseMemsWF g heq)))

theorem parseMemsWF : ∀ (fuel : Nat) {cs : List Char} {xs : JMems} {r : List Char},
    parseMems fuel cs = some (xs, r) → WFm xs = true
  | 0, cs, xs, r, h => by cases h
  | g + 1, cs, xs, r, h => by
    rw [parseMems] at h
    split at h
    · cases h
    · rename_i v r1 heqv
      split at h <;>
        first
          | (cases h; done)
          | (cases h
             rw [WFm, parseValWF g heqv]
             rfl)
          | (split at h <;>
              first
                | (cases h; done)
                | (rename_i ys r3 heqm
                   cases h
                   rw [WFm, parseValWF g heqv, parseMemsWF g heqm]
                   rfl))

theorem parseFieldsWF : ∀ (fuel : Nat) {cs : List Char} {fs : JFields} {r : List Char},
    parseFields fuel cs = some (fs, r) → WFf fs = true
  | 0, cs, fs, r, h => by cases h
  | g + 1, cs, fs, r, h => by
    rw [parseFields] at h
    split at h <;>
      first
        | (cases h; done)
        | (split at h <;>
            first
              | (cases h; done)
              | (rename_i k r1 heqk
                 split at h <;>
                   first
                     | (cases h; done)
                     | (split at h <;>
                         first
                           | (cases h; done)
                           | (rename_i v r3 heqv
                              split at h <;>
                                first
                                  | (cases h; done)
                                  | (cases h
                                     exact WFf_consField (parseValWF g heqv) rfl)
                                  | (split at h <;>
                                      first
                                        | (cases h; done)
                                        | (rename_i fs2 r5 heqf
                                           cases h
                                           exact WFf_consField (parseValWF g heqv)
                                             (parseFieldsWF g heqf)))))))

end

/-! ### Round trip: parsing a serialised well-formed value recovers it -/

theorem fuelNeed_pos : ∀ v : JVal, 1 ≤ fuelNeed v
  | .null => le_refl 1
  | .bool _ => le_refl 1
  | .num _ _ => le_refl 1
  | .str _ => le_refl 1
  | .arr xs => Nat.le_add_right 1 (fuelNeedMems xs)
  | .obj fs => Nat.le_add_right 1 (fuelNeedFields fs)

theorem parseVal_num {c : Char} (hor : c = '-' ∨ c.isDigit = true) (g : Nat) (cs : List Char) :
    parseVal (g + 1) (c :: cs) =
      match parseNumber (c :: cs) with
      | some ((m, f), r2) => some (.num m f, r2)
      | none => none := by
  have hws : isWs c = false := by
    rcases hor with h | h
    · subst h
      decide
    · exact isDigit_not_ws h
  have h1 : c ≠ '{' := by
    rcases hor with h | h
    · subst h
      decide
    · exact isDigit_ne h (by decide)
  have h2 : c ≠ '[' := by
    rcases hor with h | h
    · subst h
      decide
    · exact isDigit_ne h (by decide)
  have h3 : c ≠ '"' := by
    rcases hor with h | h
    · subst h
      decide
    · exact isDigit_ne h (by decide)
  have h4 : c ≠ 'n' := by
    rcases hor with h | h
    · subst h
      decide
    · exact isDigit_ne h (by decide)
  have h5 : c ≠ 't' := by
    rcases hor with h | h
    · subst h
      decide
    · exact isDigit_ne h (by decide)
  have h6 : c ≠ 'f' := by
    rcases hor with h | h
    · subst h
      decide
    · exact isDigit_ne h (by decide)
  rw [parseVal, skipWs_not hws]
  simp only [if_neg h1, if_neg h2, if_neg h3, if_neg h4, if_neg h5, if_neg h6, if_pos hor]


mutual

theorem rtVal : ∀ (v : JVal) (fuel : Nat) (rest : List Char),
    fuelNeed v ≤ fuel → WFv v = true → numStopB rest = true →
    parseVal fuel (dumpVal v ++ rest) = some (v, rest)
  | .null, fuel, rest, hfuel, _, _ => by
    cases fuel with
    | zero =>
      have h1 : fuelNeed JVal.null = 1 := rfl
      omega
    | succ g => rfl
  | .bool true, fuel, rest, hfuel, _, _ => by
    cases fuel with
    | zero =>
      have h1 : fuelNeed (JVal.bool true) = 1 := rfl
      omega
    | succ g => rfl
  | .bool false, fuel, rest, hfuel, _, _ => by
    cases fuel with
    | zero =>
      have h1 : fuelNeed (JVal.bool false) = 1 := rfl
      omega
    | succ g => rfl
  | .num m f, fuel, rest, hfuel, _, hstop => by
    cases fuel with
    | zero =>
      have h1 : fuelNeed (JVal.num m f) = 1 := rfl
      omega
    | succ g =>
      obtain ⟨d, ds, hd, hor⟩ := dumpNum_head m f
      have hp : parseNumber (dumpNum m f ++ rest) = some ((m, f), rest) :=
        parseNumber_dumpNum hstop
      rw [show dumpVal (JVal.num m f) = dumpNum m f from rfl, hd, List.cons_append,
        parseVal_num hor g, ← List.cons_append, ← hd, hp]
  | .str s, fuel, rest, hfuel, _, _ => by
    cases fuel with
    | zero =>
      have h1 : fuelNeed (JVal.str s) = 1 := rfl
      omega
    | succ g =>
      rw [show dumpVal (JVal.str s) = '"' :: dumpStrBody s from rfl, List.cons_append,
        parseVal, skipWs_not (by decide)]
      simp [parseStrBody_dumpStrBody s rest]
  | .arr .nil, fuel, rest, hfuel, _, _ => by
    cases fuel with
    | zero =>
      have h1 : fuelNeed (JVal.arr .nil) = 1 := by
        rw [fuelNeed, fuelNeedMems]
      omega
    | succ g => rfl
  | .arr (.cons w ys), fuel, rest, hfuel, hwf, _ => by
    cases fuel with
    | zero =>
      have h1 : 1 ≤ fuelNeed (JVal.arr (.cons w ys)) := fuelNeed_pos _
      omega
    | succ g =>
      have hfm : fuelNeedMems (.cons w ys) ≤ g := by
        have h1 : fuelNeed (JVal.arr (.cons w ys)) = 1 + fuelNeedMems (.cons w ys) := rfl
        omega
      have hwfm : WFm (.cons w ys) = true := hwf
      obtain ⟨t, ht⟩ := dumpMemsTail_cons w ys
      obtain ⟨c0, cs0, hdv, hws0, hbr1, hbr2⟩ := dumpVal_head w
      have hscrut : skipWs (dumpMemsTail (.cons w ys) ++ rest) =
          c0 :: (cs0 ++ (t ++ rest)) := by
        rw [ht, List.append_assoc, hdv, List.cons_append, skipWs_not hws0]
      have hmems := rtMems (.cons w ys) g rest hfm hwfm (fun h => JMems.noConfusion h)
      rw [show dumpVal (JVal.arr (.cons w ys)) = '[' :: dumpMemsTail (.cons w ys) from rfl,
        List.cons_append, parseVal, skipWs_not (by decide)]
      simp [hscrut, hbr1, hmems]
  | .obj .nil, fuel, rest, hfuel, _, _ => by
    cases fuel with
    | zero =>
      have h1 : fuelNeed (JVal.obj .nil) = 1 := by
        rw [fuelNeed, fuelNeedFields]
      omega
    | succ g => rfl
  | .obj (.cons k w fs2), fuel, rest, hfuel, hwf, _ => by
    cases fuel with
    | zero =>
      have h1 : 1 ≤ fuelNeed (JVal.obj (.cons k w fs2)) := fuelNeed_pos _
      omega
    | succ g =>
      have hff : fuelNeedFields (.cons k w fs2) ≤ g := by
        have h1 : fuelNeed (JVal.obj (.cons k w fs2)) = 1 + fuelNeedFields (.cons k w fs2) :=
          rfl
        omega
      have hwff : WFf (.cons k w fs2) = true := hwf
      obtain ⟨x, hx⟩ : ∃ x, dumpFieldsTail (.cons k w fs2) = '"' :: x := by
        cases fs2 with
        | nil => exact ⟨_, rfl⟩
        | cons k2 w2 fs3 => exact ⟨_, rfl⟩
      have hscrut : skipWs (dumpFieldsTail (.cons k w fs2) ++ rest) = '"' :: (x ++ rest) := by
        rw [hx, List.cons_append, skipWs_not (by decide)]
      have hflds := rtFields (.cons k w fs2) g rest hff hwff (fun h => JFields.noConfusion h)
      rw [show dumpVal (JVal.obj (.cons k w fs2)) = '{' :: dumpFieldsTail (.cons k w fs2)
          from rfl,
        List.cons_append, parseVal, skipWs_not (by decide)]
      simp [hscrut, hflds]

theorem rtMems : ∀ (xs : JMems) (fuel : Nat) (rest : List Char),
    fuelNeedMems xs ≤ fuel → WFm xs = true → xs ≠ .nil →
    parseMems fuel (dumpMemsTail xs ++ rest) = some (xs, rest)
  | .nil, _, _, _, _, hne => absurd rfl hne
  | .cons w ys, fuel, rest, hfuel, hwf, _ => by
    have hwfm : WFv w = true ∧ WFm ys = true := by
      have h := hwf
      rw [WFm, Bool.and_eq_true] at h
      exact h
    cases fuel with
    | zero =>
      have h1 : fuelNeedMems (.cons w ys) = 1 + fuelNeed w + fuelNeedMems ys := rfl
      omega
    | succ g =>
      have hfw : fuelNeed w ≤ g := by
        have h1 : fuelNeedMems (.cons w ys) = 1 + fuelNeed w + fuelNeedMems ys := rfl
        omega
      cases ys with
      | nil =>
        have hw := rtVal w g (']' :: rest) hfw hwfm.1 (by simp [numStopB])
        rw [show dumpMemsTail (.cons w .nil) = dumpVal w ++ [']'] from rfl,
          List.append_assoc, List.singleton_append, parseMems, hw]
        simp [skipWs, isWs]
      | cons y ys2 =>
        have hfm2 : fuelNeedMems (.cons y ys2) ≤ g := by
          have h1 : fuelNeedMems (.cons w (.cons y ys2)) =
              1 + fuelNeed w + fuelNeedMems (.cons y ys2) := rfl
          omega
        have hw := rtVal w g (',' :: ' ' :: (dumpMemsTail (.cons y ys2) ++ rest)) hfw hwfm.1
          (by simp [numStopB])
        have hrec := rtMems (.cons y ys2) g rest hfm2 hwfm.2 (fun h => JMems.noConfusion h)
        rw [show dumpMemsTail (.cons w (.cons y ys2)) =
            dumpVal w ++ ',' :: ' ' :: dumpMemsTail (.cons y ys2) from rfl,
          List.append_assoc, List.cons_append, List.cons_append, parseMems, hw]
        simp [skipWs, isWs, parseMems_ws, hrec]

theorem rtFields : ∀ (fs : JFields) (fuel : Nat) (rest : List Char),
    fuelNeedFields fs ≤ fuel → WFf fs = true → fs ≠ .nil →
    parseFields fuel (dumpFieldsTail fs ++ rest) = some (fs, rest)
  | .nil, _, _, _, _, hne => absurd rfl hne
  | .cons k w fs2, fuel, rest, hfuel, hwf, _ => by
    have hwfp : hasField fs2 k = false ∧ WFv w = true ∧ WFf fs2 = true := by
      have h := hwf
      rw [WFf, Bool.and_eq_true, Bool.and_eq_true] at h
      refine ⟨?_, h.1.2, h.2⟩
      have h1 := h.1.1
      simp at h1
      exact h1
    cases fuel with
    | zero =>
      have h1 : fuelNeedFields (.cons k w fs2) = 1 + fuelNeed w + fuelNeedFields fs2 := rfl
      omega
    | succ g =>
      have hfw : fuelNeed w ≤ g := by
        have h1 : fuelNeedFields (.cons k w fs2) = 1 + fuelNeed w + fuelNeedFields fs2 := rfl
        omega
      have hcf : consField k w fs2 = .cons k w fs2 := by
        rw [consField, findField_none_of_not_has hwfp.1]
      cases fs2 with
      | nil =>
        have hw := rtVal w g ('}' :: rest) hfw hwfp.2.1 (by simp [numStopB])
        have hshape : dumpFieldsTail (.cons k w .nil) ++ rest =
            '"' :: (dumpStrBody k ++ (':' :: ' ' :: (dumpVal w ++ ('}' :: rest)))) := by
          rw [dumpFieldsTail]
          simp
        rw [hshape, parseFields, skipWs_not (by decide)]
        simp [parseStrBody_dumpStrBody, skipWs, isWs, parseVal_ws, hw, hcf]
      | cons k2 w2 fs3 =>
        have hffr : fuelNeedFields (.cons k2 w2 fs3) ≤ g := by
          have h1 : fuelNeedFields (.cons k w (.cons k2 w2 fs3)) =
              1 + fuelNeed w + fuelNeedFields (.cons k2 w2 fs3) := rfl
          omega
        have hw := rtVal w g
          (',' :: ' ' :: (dumpFieldsTail (.cons k2 w2 fs3) ++ rest)) hfw hwfp.2.1
          (by simp [numStopB])
        have hrec := rtFields (.cons k2 w2 fs3) g rest hffr hwfp.2.2 (fun h => JFields.noConfusion h)
        have hshape : dumpFieldsTail (.cons k w (.cons k2 w2 fs3)) ++ rest =
            '"' :: (dumpStrBody k ++ (':' :: ' ' :: (dumpVal w ++
              (',' :: ' ' :: (dumpFieldsTail (.cons k2 w2 fs3) ++ rest))))) := by
          rw [dumpFieldsTail]
          · simp
          · exact fun h => JFields.noConfusion h
        rw [hshape, parseFields, skipWs_not (by decide)]
        simp [parseStrBody_dumpStrBody, skipWs, isWs, parseVal_ws, hw, parseFields_ws,
          hrec, hcf]

end

/-! ### Top-level round trip -/

theorem dumpStrBody_length (s : List Char) : 1 ≤ (dumpStrBody s).length := by
  induction s with
  | nil => decide
  | cons c s ih =>
    rw [dumpStrBody_cons, List.length_append]
    omega

mutual

theorem fuelNeed_le_len : ∀ v : JVal, fuelNeed v ≤ (dumpVal v).length
  | .null => by decide
  | .bool true => by decide
  | .bool false => by decide
  | .num m f => by
    obtain ⟨d, ds, hd, _⟩ := dumpNum_head m f
    rw [show dumpVal (JVal.num m f) = dumpNum m f from rfl, hd,
      show fuelNeed (JVal.num m f) = 1 from rfl]
    simp
  | .str s => by
    rw [show dumpVal (JVal.str s) = '"' :: dumpStrBody s from rfl,
      show fuelNeed (JVal.str s) = 1 from rfl]
    simp
  | .arr .nil => by decide
  | .arr (.cons w ys) => by
    rw [show dumpVal (JVal.arr (.cons w ys)) = '[' :: dumpMemsTail (.cons w ys) from rfl,
      show fuelNeed (JVal.arr (.cons w ys)) = 1 + fuelNeedMems (.cons w ys) from rfl]
    have := fuelNeedMems_le_len (.cons w ys)
    simp only [List.length_cons]
    omega
  | .obj .nil => by decide
  | .obj (.cons k w fs) => by
    rw [show dumpVal (JVal.obj (.cons k w fs)) = '{' :: dumpFieldsTail (.cons k w fs)
        from rfl,
      show fuelNeed (JVal.obj (.cons k w fs)) = 1 + fuelNeedFields (.cons k w fs) from rfl]
    have := fuelNeedFields_le_len (.cons k w fs)
    simp only [List.length_cons]
    omega

theorem fuelNeedMems_le_len : ∀ xs : JMems, fuelNeedMems xs ≤ (dumpMemsTail xs).length
  | .nil => by decide
  | .cons w .nil => by
    rw [show dumpMemsTail (.cons w .nil) = dumpVal w ++ [']'] from rfl,
      show fuelNeedMems (.cons w .nil) = 1 + fuelNeed w + fuelNeedMems .nil from rfl,
      show fuelNeedMems JMems.nil = 0 from rfl]
    have := fuelNeed_le_len w
    simp only [List.length_append, List.length_cons, List.length_nil]
    omega
  | .cons w (.cons y ys) => by
    rw [show dumpMemsTail (.cons w (.cons y ys)) =
        dumpVal w ++ ',' :: ' ' :: dumpMemsTail (.cons y ys) from rfl,
      show fuelNeedMems (.cons w (.cons y ys)) =
        1 + fuelNeed w + fuelNeedMems (.cons y ys) from rfl]
    have h1 := fuelNeed_le_len w
    have h2 := fuelNeedMems_le_len (.cons y ys)
    simp only [List.length_append, List.length_cons]
    omega

theorem fuelNeedFields_le_len : ∀ fs : JFields, fuelNeedFields fs ≤ (dumpFieldsTail fs).length
  | .nil => by decide
  | .cons k w .nil => by
    rw [show fuelNeedFields (.cons k w .nil) = 1 + fuelNeed w + fuelNeedFields .nil from rfl,
      show fuelNeedFields JFields.nil = 0 from rfl, dumpFieldsTail]
    have h1 := fuelNeed_le_len w
    simp only [List.length_append, List.length_cons, List.length_nil]
    omega
  | .cons k w (.cons k2 w2 fs) => by
    rw [show fuelNeedFields (.cons k w (.cons k2 w2 fs)) =
        1 + fuelNeed w + fuelNeedFields (.cons k2 w2 fs) from rfl, dumpFieldsTail]
    · have h1 := fuelNeed_le_len w
      have h2 := fuelNeedFields_le_len (.cons k2 w2 fs)
      simp only [List.length_append, List.length_cons]
      omega
    · exact fun h => JFields.noConfusion h

end

/-- Serialising any well-formed JSON value and parsing it back recovers the
value: this is what makes `process_order(json.dumps(sns_message))` safe. -/
theorem parse_dumpVal {v : JVal} (hwf : WFv v = true) : parse (dumpVal v) = some v := by
  have hfuel : fuelNeed v ≤ 2 * (dumpVal v).length + 2 := by
    have := fuelNeed_le_len v
    omega
  have h1 := rtVal v (2 * (dumpVal v).length + 2) [] hfuel hwf rfl
  rw [List.append_nil] at h1
  rw [parse, h1]
  rfl

/-- Values produced by `parse` are well-formed. -/
theorem parseTopWF {cs : List Char} {v : JVal} (h : parse cs = some v) : WFv v = true := by
  rw [parse] at h
  split at h
  · rename_i v2 r heq
    split_ifs at h
    cases h
    exact parseValWF _ heq
  · cases h

/-! ### setField and findField lemmas (Python dict assignment) -/

theorem setField_setField_same : ∀ (fs : JFields) (k : List Char) (a b : JVal),
    setField (setField fs k a) k b = setField fs k b
  | .nil, k, a, b => by simp [setField]
  | .cons k2 v2 rest, k, a, b => by
    by_cases h : (k2 == k) = true
    · simp [setField, h]
    · simp [setField, h, setField_setField_same rest k a b]

theorem setField_of_findField : ∀ {fs : JFields} {k : List Char} {v : JVal},
    findField fs k = some v → setField fs k v = fs
  | .nil, k, v, h => by
    rw [findField] at h
    cases h
  | .cons k2 v2 rest, k, v, h => by
    rw [findField] at h
    by_cases hk : (k2 == k) = true
    · rw [if_pos hk] at h
      cases h
      have hk2 : k2 = k := by simpa using hk
      subst hk2
      simp [setField]
    · rw [if_neg hk] at h
      simp [setField, hk, setField_of_findField h]

theorem findField_setField_same : ∀ (fs : JFields) (k : List Char) (v : JVal),
    findField (setField fs k v) k = some v
  | .nil, k, v => by simp [setField, findField]
  | .cons k2 v2 rest, k, v => by
    by_cases h : (k2 == k) = true
    · simp [setField, findField, h]
    · simp [setField, findField, h, findField_setField_same rest k v]

theorem findField_setField_other : ∀ (fs : JFields) {k k2 : List Char} (v : JVal), k ≠ k2 →
    findField (setField fs k v) k2 = findField fs k2
  | .nil, k, k2, v, hne => by
    have h1 : (k == k2) = false := by simp [hne]
    simp [setField, findField, h1]
  | .cons k3 v3 rest, k, k2, v, hne => by
    by_cases h1 : (k3 == k) = true
    · have hk3 : k3 = k := by simpa using h1
      subst hk3
      have h2 : (k3 == k2) = false := by simp [hne]
      simp [setField, findField, h2]
    · simp [setField, findField, h1, findField_setField_other rest v hne]

/-- The two dict assignments of `process_order` are idempotent on the order. -/
theorem updOrder_idem (t : List Char) (v : JVal) :
    updOrder t (updOrder t v) = updOrder t v := by
  cases v with
  | obj fs =>
    rw [updOrder, updOrder]
    have hf : findField
        (setField (setField fs kStatus (JVal.str "processing".data)) kProcessedAt
          (JVal.str t)) kStatus = some (JVal.str "processing".data) := by
      rw [findField_setField_other _ (JVal.str t)
          (show kProcessedAt ≠ kStatus by decide),
        findField_setField_same]
    rw [setField_of_findField hf, setField_setField_same]
  | null => rfl
  | bool b => rfl
  | num m f => rfl
  | str s => rfl
  | arr xs => rfl

/-- After processing, the order status reads `processing`. -/
theorem statusOf_updOrder (t : List Char) (fs : JFields) :
    statusOf (updOrder t (JVal.obj fs)) = some (JVal.str "processing".data) := by
  rw [updOrder, statusOf,
    findField_setField_other _ (JVal.str t) (by decide : kProcessedAt ≠ kStatus),
    findField_setField_same]

/-! ### Behaviour of process_order and the consumer steps -/

theorem process_order_payload {t s2 : List Char} {w : JVal} (h : parse s2 = some w) :
    (process_order t s2).payload = some w := by
  rw [process_order, h]
  by_cases ho : orderOk w = true <;> simp [ho]

theorem process_order_decodeErr {t s2 : List Char} {w : JVal} (h : parse s2 = some w) :
    (process_order t s2).decodeError = false := by
  rw [process_order, h]
  by_cases ho : orderOk w = true <;> simp [ho]

theorem process_order_ok {t s2 : List Char} {w : JVal} (h : parse s2 = some w) :
    (process_order t s2).ok = orderOk w := by
  rw [process_order, h]
  by_cases ho : orderOk w = true <;> simp [ho]

theorem process_order_incs (t s2 : List Char) :
    (process_order t s2).processedInc + (process_order t s2).failedInc = 1 ∧
    (process_order t s2).durationObs = 1 := by
  rw [process_order]
  cases hp : parse s2 with
  | none => simp
  | some v => by_cases ho : orderOk v = true <;> simp [ho]

theorem stepOrder_wrapped {t b : List Char} {fs : JFields} {m w : JVal}
    (hb : parse b = some (.obj fs)) (hm : findField fs kMessage = some m)
    (hr : resolveInner m = some w) :
    stepOrder t b = .ok (ordEffOf (process_order t (dumpVal w))) := by
  rw [stepOrder, hb]
  cases m with
  | str s =>
    have hs : parse s = some w := hr
    simp [hm, hs]
  | null => cases hr; simp [hm]
  | bool b2 => cases hr; simp [hm]
  | num m2 f2 => cases hr; simp [hm]
  | arr xs => cases hr; simp [hm]
  | obj fs2 => cases hr; simp [hm]

theorem stepNotif_wrapped {b : List Char} {fs : JFields} {m w : JVal}
    (hb : parse b = some (.obj fs)) (hm : findField fs kMessage = some m)
    (hr : resolveInner m = some w) :
    stepNotif b = .ok ⟨send_notification w, some w, send_notification w, 0, 0, 0⟩ := by
  rw [stepNotif, hb]
  cases m with
  | str s =>
    have hs : parse s = some w := hr
    simp [hm, hs]
  | null => cases hr; simp [hm]
  | bool b2 => cases hr; simp [hm]
  | num m2 f2 => cases hr; simp [hm]
  | arr xs => cases hr; simp [hm]
  | obj fs2 => cases hr; simp [hm]

theorem stepOrder_direct {t b : List Char} {fs : JFields}
    (hb : parse b = some (.obj fs)) (hm : findField fs kMessage = none) :
    stepOrder t b = .ok (ordEffOf (process_order t b)) := by
  rw [stepOrder, hb]
  simp [hm]

theorem stepNotif_direct {b : List Char} {fs : JFields}
    (hb : parse b = some (.obj fs)) (hm : findField fs kMessage = none) :
    stepNotif b = .ok ⟨send_notification (.obj fs), some (.obj fs),
      send_notification (.obj fs), 0, 0, 0⟩ := by
  rw [stepNotif, hb]
  simp [hm]

theorem runOrder_recvCount (t : List Char) :
    ∀ (bodies : List (List Char)) (acc : ConsumerRun),
    acc.receivedInc = acc.count →
    (runOrder t bodies acc).1.receivedInc = (runOrder t bodies acc).1.count := by
  intro bodies
  induction bodies with
  | nil =>
    intro acc h
    exact h
  | cons b rest ih =>
    intro acc h
    rw [runOrder]
    cases hs : stepOrder t b with
    | error e => simpa using h
    | ok e =>
      simp only
      exact ih _ (by simpa using h)

theorem runOrder_count (t : List Char) :
    ∀ (bodies : List (List Char)) (acc : ConsumerRun),
    (runOrder t bodies acc).2 = false →
    (runOrder t bodies acc).1.count = acc.count + bodies.length := by
  intro bodies
  induction bodies with
  | nil =>
    intro acc _
    rw [runOrder]
    simp
  | cons b rest ih =>
    intro acc hnc
    rw [runOrder] at hnc ⊢
    cases hs : stepOrder t b with
    | error e =>
      rw [hs] at hnc
      simp at hnc
    | ok e =>
      rw [hs] at hnc
      simp only at hnc ⊢
      rw [ih _ hnc]
      simp only [List.length_cons]
      omega

/-! ### The claims -/

/-- C1.  For every received message handle, each consumer deletes the
handle if and only if its domain handler (`process_order` respectively
`send_notification`) returned success; on handler failure `delete_message`
is never called, so the message stays eligible for redelivery. -/
theorem claim1_delete_iff_handler_success : ∀ (t b : List Char),
    (ordDeleted (stepOrder t b) = true ↔ ordHandlerRet (stepOrder t b) = some true) ∧
    (ntfDeleted (stepNotif b) = true ↔ ntfHandlerRet (stepNotif b) = some true) := by
  intro t b
  constructor
  · rw [stepOrder]
    repeat' split
    all_goals simp [ordDeleted, ordHandlerRet, ordEffOf]
  · rw [stepNotif]
    repeat' split
    all_goals simp [ntfDeleted, ntfHandlerRet]

/-- C2.  For every body parsing to an object with a `Message` field holding
a string that itself parses as JSON, both consumers hand the twice-parsed
inner value — not the outer wrapper — to the domain handler. -/
theorem claim2_wrapped_payload : ∀ (t b s : List Char) (fs : JFields) (v : JVal),
    parse b = some (.obj fs) → findField fs kMessage = some (.str s) → parse s = some v →
    ordPayload (stepOrder t b) = some v ∧ ntfPayload (stepNotif b) = some v := by
  intro t b s fs v hb hm hs
  have hwf : WFv v = true := parseTopWF hs
  have hw : stepOrder t b = .ok (ordEffOf (process_order t (dumpVal v))) :=
    stepOrder_wrapped hb hm (show resolveInner (.str s) = some v from hs)
  have hn : stepNotif b =
      .ok ⟨send_notification v, some v, send_notification v, 0, 0, 0⟩ :=
    stepNotif_wrapped hb hm (show resolveInner (.str s) = some v from hs)
  constructor
  · rw [hw]
    show (ordEffOf (process_order t (dumpVal v))).payload = some v
    show (process_order t (dumpVal v)).payload = some v
    exact process_order_payload (parse_dumpVal hwf)
  · rw [hn]
    rfl

/-- C3 counterexample.  A body that is not valid JSON at the outer level
(`"x"` here) raises an uncaught `json.JSONDecodeError` at
`json.loads(message['Body'])`: the iteration does not complete, the polling
loop terminates, and no summary is printed — contradicting the claim that
no per-message error terminates the consumer control loop. -/
theorem claim3_counterexample :
    ordStepOk (stepOrder [] ("x".data)) = false ∧
    ntfStepOk (stepNotif ("x".data)) = false ∧
    (orderMain [] ["x".data]).1 = none ∧
    (notifMain ["x".data]).1 = none :=
  ⟨rfl, rfl, rfl, rfl⟩

/-- C3 amended.  Errors inside the domain handlers never terminate the loop:
for every body whose outer JSON parses to an object and whose `Message`
value, when it is a string, parses as JSON, the iteration completes normally
(with failure merely meaning no delete).  However, a body malformed at the
outer level, an outer value for which the wrapper test is ill-typed, or a
wrapped `Message` string with malformed JSON raises an uncaught exception
that terminates the loop (see the counterexample). -/
theorem claim3_amended : ∀ (t b : List Char) (fs : JFields),
    parse b = some (.obj fs) → wrapInnerOk fs = true →
    ordStepOk (stepOrder t b) = true ∧ ntfStepOk (stepNotif b) = true := by
  intro t b fs hb hwio
  rw [wrapInnerOk] at hwio
  cases hm : findField fs kMessage with
  | none =>
    rw [stepOrder_direct hb hm, stepNotif_direct hb hm]
    exact ⟨rfl, rfl⟩
  | some m =>
    rw [hm] at hwio
    cases m with
    | str s =>
      simp only [Option.isSome_iff_exists] at hwio
      obtain ⟨w, hs⟩ := hwio
      rw [stepOrder_wrapped hb hm (show resolveInner (.str s) = some w from hs),
        stepNotif_wrapped hb hm (show resolveInner (.str s) = some w from hs)]
      exact ⟨rfl, rfl⟩
    | null =>
      rw [stepOrder_wrapped hb hm rfl, stepNotif_wrapped hb hm rfl]
      exact ⟨rfl, rfl⟩
    | bool b2 =>
      rw [stepOrder_wrapped hb hm rfl, stepNotif_wrapped hb hm rfl]
      exact ⟨rfl, rfl⟩
    | num m2 f2 =>
      rw [stepOrder_wrapped hb hm rfl, stepNotif_wrapped hb hm rfl]
      exact ⟨rfl, rfl⟩
    | arr xs =>
      rw [stepOrder_wrapped hb hm rfl, stepNotif_wrapped hb hm rfl]
      exact ⟨rfl, rfl⟩
    | obj fs2 =>
      rw [stepOrder_wrapped hb hm rfl, stepNotif_wrapped hb hm rfl]
      exact ⟨rfl, rfl⟩

/-- C3 witness for the amended statement, at the valid body `"{}"`. -/
theorem claim3_witness :
    parse ("\x7b\x7d".data) = some (.obj .nil) ∧
    ordStepOk (stepOrder [] ("\x7b\x7d".data)) = true ∧
    ntfStepOk (stepNotif ("\x7b\x7d".data)) = true :=
  ⟨rfl, (claim3_amended [] ("\x7b\x7d".data) .nil rfl rfl).1,
    (claim3_amended [] ("\x7b\x7d".data) .nil rfl rfl).2⟩

/-- C4 counterexample.  The notification service defines no Prometheus
metrics at all: on a perfectly valid order body its handler succeeds, yet
neither a `processed` nor a `failed` counter is incremented (and no
duration is recorded) — contradicting the claim for that consumer variant. -/
theorem claim4_counterexample :
    ntfHandlerRet (stepNotif
      ("\x7b\"customer_id\": \"c\", \"order_id\": \"o\", \"total_amount\": 5, \"items\": [\"x\"]\x7d".data))
      = some true ∧
    ntfIncs (stepNotif
      ("\x7b\"customer_id\": \"c\", \"order_id\": \"o\", \"total_amount\": 5, \"items\": [\"x\"]\x7d".data))
      = some (0, 0, 0) :=
  ⟨rfl, rfl⟩

/-- C4 amended.  In the order-processing consumer every pulled handle
increments `message_count` and the `received` counter in lock-step, and
whenever the handler runs it increments exactly one of `processed`/`failed`
and records exactly one duration observation; the notification consumer
increments no metric counters at all. -/
theorem claim4_amended : ∀ (t b : List Char),
    (∀ e : OrdEff, stepOrder t b = .ok e →
      e.processedInc + e.failedInc = 1 ∧ e.durationObs = 1) ∧
    (∀ e2 : NtfEff, stepNotif b = .ok e2 →
      e2.processedInc = 0 ∧ e2.failedInc = 0 ∧ e2.durationObs = 0) ∧
    (∀ bodies : List (List Char),
      (runOrder t bodies emptyRun).1.receivedInc = (runOrder t bodies emptyRun).1.count) := by
  intro t b
  refine ⟨?_, ?_, fun bodies => runOrder_recvCount t bodies emptyRun rfl⟩
  · intro e h
    rw [stepOrder] at h
    repeat' split at h
    all_goals (cases h <;> exact process_order_incs t _)
  · intro e2 h
    rw [stepNotif] at h
    repeat' split at h
    all_goals (cases h <;> exact ⟨rfl, rfl, rfl⟩)

/-- C4 witness for the amended statement, at the body `"{}"` (handler runs
and fails) and a singleton run. -/
theorem claim4_witness :
    ((ordEffOf (process_order [] ("\x7b\x7d".data))).processedInc +
        (ordEffOf (process_order [] ("\x7b\x7d".data))).failedInc = 1 ∧
      (ordEffOf (process_order [] ("\x7b\x7d".data))).durationObs = 1) ∧
    ((0 : Nat) = 0 ∧ (0 : Nat) = 0 ∧ (0 : Nat) = 0) ∧
    (runOrder [] [("\x7b\x7d".data)] emptyRun).1.receivedInc =
      (runOrder [] [("\x7b\x7d".data)] emptyRun).1.count :=
  ⟨(claim4_amended [] ("\x7b\x7d".data)).1 _ rfl,
    (claim4_amended [] ("\x7b\x7d".data)).2.1 ⟨false, some (.obj .nil), false, 0, 0, 0⟩ rfl,
    (claim4_amended [] ("\x7b\x7d".data)).2.2 [("\x7b\x7d".data)]⟩

/-- C5 counterexample.  `message_count` counts every received message, not
the successes: on the single body `"{}"` the handler fails (no field
`order_id`), yet the summary printed on interrupt says `1` while zero
messages were handled successfully — contradicting the claim that the
summary equals the count of successfully processed messages. -/
theorem claim5_counterexample :
    (orderMain [] ["\x7b\x7d".data]).1 = some 1 ∧
    (orderMain [] ["\x7b\x7d".data]).2.succeeded = 0 ∧
    ordHandlerRet (stepOrder [] ("\x7b\x7d".data)) = some false :=
  ⟨rfl, rfl, rfl⟩

/-- C5 amended.  When the interrupt arrives the loop exits cleanly (no
partial-message cleanup) and prints a summary; but that summary equals the
number of messages *received*, which equals the number successfully
processed only when every handler call succeeded. -/
theorem claim5_amended : ∀ (t : List Char) (bodies : List (List Char)),
    (runOrder t bodies emptyRun).2 = false →
    (orderMain t bodies).1 = some bodies.length ∧
    (orderMain t bodies).2.count = bodies.length := by
  intro t bodies hnc
  have hc := runOrder_count t bodies emptyRun hnc
  rw [orderMain]
  cases hrun : runOrder t bodies emptyRun with
  | mk acc crashed =>
    rw [hrun] at hnc hc
    cases crashed with
    | true => cases hnc
    | false =>
      simp only at hc ⊢
      rw [hc]
      constructor <;> simp [emptyRun]

/-- C5 witness for the amended statement, on a singleton non-crashing run. -/
theorem claim5_witness :
    (runOrder [] [("\x7b\x7d".data)] emptyRun).2 = false ∧
    (orderMain [] [("\x7b\x7d".data)]).1 = some 1 ∧
    (orderMain [] [("\x7b\x7d".data)]).2.count = 1 :=
  ⟨rfl, (claim5_amended [] [("\x7b\x7d".data)] rfl).1,
    (claim5_amended [] [("\x7b\x7d".data)] rfl).2⟩

/-- C6.  For every valid raw JSON body whose parsed mapping has no
`Message` field, both consumers treat the first-parsed mapping itself as
the domain payload, unchanged. -/
theorem claim6_direct_payload : ∀ (t b : List Char) (fs : JFields),
    parse b = some (.obj fs) → findField fs kMessage = none →
    ordPayload (stepOrder t b) = some (.obj fs) ∧
    ntfPayload (stepNotif b) = some (.obj fs) := by
  intro t b fs hb hm
  constructor
  · rw [stepOrder_direct hb hm]
    show (process_order t b).payload = some (.obj fs)
    exact process_order_payload hb
  · rw [stepNotif_direct hb hm]
    rfl

/-- C6 witness at the wrapperless body. -/
theorem claim6_witness :
    parse ("\x7b\"a\": 1\x7d".data) =
      some (.obj (.cons "a".data (.num 1 0) .nil)) ∧
    ordPayload (stepOrder [] ("\x7b\"a\": 1\x7d".data)) =
      some (.obj (.cons "a".data (.num 1 0) .nil)) ∧
    ntfPayload (stepNotif ("\x7b\"a\": 1\x7d".data)) =
      some (.obj (.cons "a".data (.num 1 0) .nil)) :=
  ⟨rfl,
    (claim6_direct_payload [] ("\x7b\"a\": 1\x7d".data)
      (.cons "a".data (.num 1 0) .nil) rfl rfl).1,
    (claim6_direct_payload [] ("\x7b\"a\": 1\x7d".data)
      (.cons "a".data (.num 1 0) .nil) rfl rfl).2⟩

/-- C7.  `process_order` is idempotent with respect to redelivery: on a
valid order body it succeeds, its observable mutation is the status/
`processed_at` update, applying that update twice is a no-op relative to
once, and the status afterwards reads `processing`.  A second call on the
same body is the same pure function application, hence also succeeds. -/
theorem claim7_idempotent : ∀ (t s : List Char) (v : JVal),
    parse s = some v → orderOk v = true →
    (process_order t s).ok = true ∧
    (process_order t s).state = some (updOrder t v) ∧
    updOrder t (updOrder t v) = updOrder t v ∧
    statusOf (updOrder t v) = some (.str "processing".data) := by
  intro t s v hp ho
  refine ⟨?_, ?_, updOrder_idem t v, ?_⟩
  · rw [process_order, hp]
    simp [ho]
  · rw [process_order, hp]
    simp [ho]
  · cases v with
    | obj fs => exact statusOf_updOrder t fs
    | null => exact Bool.noConfusion ho
    | bool b2 => exact Bool.noConfusion ho
    | num m2 f2 => exact Bool.noConfusion ho
    | str s2 => exact Bool.noConfusion ho
    | arr xs => exact Bool.noConfusion ho

/-- C7 witness at a concrete valid order. -/
theorem claim7_witness :
    orderOk (.obj (.cons "order_id".data (.str "o".data)
      (.cons "customer_id".data (.str "c".data)
      (.cons "items".data (.arr (.cons (.str "i".data) .nil))
      (.cons "total_amount".data (.num 1250 2)
      (.cons "status".data (.str "pending".data) .nil)))))) = true ∧
    ((process_order []
        ("\x7b\"order_id\": \"o\", \"customer_id\": \"c\", \"items\": [\"i\"], \"total_amount\": 12.50, \"status\": \"pending\"\x7d".data)).ok
      = true ∧
      (process_order []
        ("\x7b\"order_id\": \"o\", \"customer_id\": \"c\", \"items\": [\"i\"], \"total_amount\": 12.50, \"status\": \"pending\"\x7d".data)).state
      = some (updOrder [] (.obj (.cons "order_id".data (.str "o".data)
          (.cons "customer_id".data (.str "c".data)
          (.cons "items".data (.arr (.cons (.str "i".data) .nil))
          (.cons "total_amount".data (.num 1250 2)
          (.cons "status".data (.str "pending".data) .nil))))))) ∧
      updOrder [] (updOrder [] (.obj (.cons "order_id".data (.str "o".data)
        (.cons "customer_id".data (.str "c".data)
        (.cons "items".data (.arr (.cons (.str "i".data) .nil))
        (.cons "total_amount".data (.num 1250 2)
        (.cons "status".data (.str "pending".data) .nil)))))))
        = updOrder [] (.obj (.cons "order_id".data (.str "o".data)
        (.cons "customer_id".data (.str "c".data)
        (.cons "items".data (.arr (.cons (.str "i".data) .nil))
        (.cons "total_amount".data (.num 1250 2)
        (.cons "status".data (.str "pending".data) .nil)))))) ∧
      statusOf (updOrder [] (.obj (.cons "order_id".data (.str "o".data)
        (.cons "customer_id".data (.str "c".data)
        (.cons "items".data (.arr (.cons (.str "i".data) .nil))
        (.cons "total_amount".data (.num 1250 2)
        (.cons "status".data (.str "pending".data) .nil)))))))
        = some (.str "processing".data)) :=
  ⟨rfl, claim7_idempotent []
    ("\x7b\"order_id\": \"o\", \"customer_id\": \"c\", \"items\": [\"i\"], \"total_amount\": 12.50, \"status\": \"pending\"\x7d".data)
    (.obj (.cons "order_id".data (.str "o".data)
      (.cons "customer_id".data (.str "c".data)
      (.cons "items".data (.arr (.cons (.str "i".data) .nil))
      (.cons "total_amount".data (.num 1250 2)
      (.cons "status".data (.str "pending".data) .nil)))))) rfl rfl⟩

/-- C8.  The producer derives the `priority` message attribute from the
order total by a strict threshold at 500: totals strictly below 500
(including 499.99) map to `normal`, totals of 500.00 and above map to
`high`; the attribute mapping carries it under key `priority` with
`order_type = standard`. -/
theorem claim8_priority_threshold : ∀ q : ℚ,
    (q < 500 → priorityValue q = "normal".data) ∧
    (500 ≤ q → priorityValue q = "high".data) ∧
    priorityValue (49999 / 100) = "normal".data ∧
    message_attributes q =
      [("order_type".data, ⟨"String".data, "standard".data⟩),
       ("priority".data, ⟨"String".data, priorityValue q⟩)] := by
  intro q
  refine ⟨fun h => ?_, fun h => ?_, ?_, rfl⟩
  · rw [priorityValue, if_pos h]
  · rw [priorityValue, if_neg (not_lt.mpr h)]
  · rw [priorityValue, if_pos (by norm_num)]

/-- C8 witness at the boundary totals. -/
theorem claim8_witness :
    priorityValue (49999 / 100) = "normal".data ∧
    priorityValue 500 = "high".data :=
  ⟨(claim8_priority_threshold (49999 / 100)).1 (by norm_num),
    (claim8_priority_threshold 500).2.1 (by norm_num)⟩

/-- C9.  `receive_messages` (in both services) never raises to its caller
and never returns an error value: a `ClientError` yields the empty list, a
response without a `Messages` field (zero messages within the wait bound)
yields the empty list, and otherwise the received messages are returned
as-is. -/
theorem claim9_receive_total :
    OrderSvc.receive_messages .clientError = [] ∧
    OrderSvc.receive_messages (.success none) = [] ∧
    (∀ msgs, OrderSvc.receive_messages (.success (some msgs)) = msgs) ∧
    NotifSvc.receive_messages .clientError = [] ∧
    NotifSvc.receive_messages (.success none) = [] ∧
    (∀ msgs, NotifSvc.receive_messages (.success (some msgs)) = msgs) :=
  ⟨rfl, rfl, fun _ => rfl, rfl, rfl, fun _ => rfl⟩

/-- C10.  On the wrapped path the order-processing consumer always calls
`process_order` on `json.dumps` of an already-parsed value, so the
handler's `JSONDecodeError` branch is unreachable there: the handler
processes exactly the unwrapped value and fails only when order-field
validation (`orderOk`) fails. -/
theorem claim10_wrapped_no_decode_error : ∀ (t b : List Char) (fs : JFields) (m w : JVal),
    parse b = some (.obj fs) → findField fs kMessage = some m → resolveInner m = some w →
    ordDecodeErr (stepOrder t b) = some false ∧
    ordHandlerRet (stepOrder t b) = some (orderOk w) ∧
    ordPayload (stepOrder t b) = some w := by
  intro t b fs m w hb hm hr
  have hfsWF : WFf fs = true := parseTopWF hb
  have hmWF : WFv m = true := findField_WFv hfsWF hm
  have hwWF : WFv w = true := by
    cases m with
    | str s => exact parseTopWF hr
    | null => cases hr; exact hmWF
    | bool b2 => cases hr; exact hmWF
    | num m2 f2 => cases hr; exact hmWF
    | arr xs => cases hr; exact hmWF
    | obj fs2 => cases hr; exact hmWF
  have hpd : parse (dumpVal w) = some w := parse_dumpVal hwWF
  rw [stepOrder_wrapped hb hm hr]
  refine ⟨?_, ?_, ?_⟩
  · show some (process_order t (dumpVal w)).decodeError = some false
    rw [process_order_decodeErr hpd]
  · show some (process_order t (dumpVal w)).ok = some (orderOk w)
    rw [process_order_ok hpd]
  · show (process_order t (dumpVal w)).payload = some w
    exact process_order_payload hpd

/-- C10 witness at a wrapped message whose `Message` value is the number 7
(not a valid order, so the handler fails — but not with a decode error). -/
theorem claim10_witness :
    parse ("\x7b\"Message\": 7\x7d".data) =
      some (.obj (.cons "Message".data (.num 7 0) .nil)) ∧
    ordDecodeErr (stepOrder [] ("\x7b\"Message\": 7\x7d".data)) = some false ∧
    ordHandlerRet (stepOrder [] ("\x7b\"Message\": 7\x7d".data)) = some false ∧
    ordPayload (stepOrder [] ("\x7b\"Message\": 7\x7d".data)) = some (.num 7 0) :=
  ⟨rfl,
    (claim10_wrapped_no_decode_error [] ("\x7b\"Message\": 7\x7d".data)
      (.cons "Message".data (.num 7 0) .nil) (.num 7 0) (.num 7 0) rfl rfl rfl).1,
    (claim10_wrapped_no_decode_error [] ("\x7b\"Message\": 7\x7d".data)
      (.cons "Message".data (.num 7 0) .nil) (.num 7 0) (.num 7 0) rfl rfl rfl).2.1,
    (claim10_wrapped_no_decode_error [] ("\x7b\"Message\": 7\x7d".data)
      (.cons "Message".data (.num 7 0) .nil) (.num 7 0) (.num 7 0) rfl rfl rfl).2.2⟩

/-- C2 witness at a concrete wrapped envelope. -/
theorem claim2_witness :
    parse ("\x7b\"Message\": \"\x7b\\\"order_id\\\": 1\x7d\"\x7d".data) =
      some (.obj (.cons "Message".data (.str ("\x7b\"order_id\": 1\x7d".data)) .nil)) ∧
    ordPayload (stepOrder [] ("\x7b\"Message\": \"\x7b\\\"order_id\\\": 1\x7d\"\x7d".data)) =
      some (.obj (.cons "order_id".data (.num 1 0) .nil)) ∧
    ntfPayload (stepNotif ("\x7b\"Message\": \"\x7b\\\"order_id\\\": 1\x7d\"\x7d".data)) =
      some (.obj (.cons "order_id".data (.num 1 0) .nil)) :=
  ⟨rfl,
    (claim2_wrapped_payload [] ("\x7b\"Message\": \"\x7b\\\"order_id\\\": 1\x7d\"\x7d".data)
      ("\x7b\"order_id\": 1\x7d".data)
      (.cons "Message".data (.str ("\x7b\"order_id\": 1\x7d".data)) .nil)
      (.obj (.cons "order_id".data (.num 1 0) .nil)) rfl rfl rfl).1,
    (claim2_wrapped_payload [] ("\x7b\"Message\": \"\x7b\\\"order_id\\\": 1\x7d\"\x7d".data)
      ("\x7b\"order_id\": 1\x7d".data)
      (.cons "Message".data (.str ("\x7b\"order_id\": 1\x7d".data)) .nil)
      (.obj (.cons "order_id".data (.num 1 0) .nil)) rfl rfl rfl).2⟩

end SnsSqs
